import Mathlib

/-!
# TwitchIRCClient

A shallow embedding of `TwitchIRCClient.h` (the chat-line parser `getIRCMessage`, the
rate-limited sender `sendRaw`, the listener registry and the poll cycle `update`), and
theorems about it.

Modelling conventions.

* A `std::string` (and a `char` buffer) is the sequence of its `char` elements, `Str`.
  A `char*` read as a C string stops at the first NUL element (`cstr`).
* `uint64_t` values are natural numbers; subtraction wraps modulo `2 ^ 64` (`sub64`).
* The transport `mTCP` and the clock `ofGetElapsedTimeMillis` are external. Their
  observable behaviour is carried in the client state: `connected` is what
  `mTCP.isConnected()` answers, `incoming` holds the lines the next calls of
  `mTCP.receive()` return (an exhausted list reads as the empty string), `transmitted`
  logs every argument of `mTCP.sendRaw`, and `clock` is the stream of values the next
  calls of `ofGetElapsedTimeMillis()` return.
* The client code never writes the connection state, and the model takes the transport to
  keep it during an operation: `connected` changes in `connect` only, where it becomes
  what `mTCP.setup` answers.
* A handler is a function pointer, represented by a number. Calling it is recorded in
  `handlerCalls` together with the key of the map entry it was taken from; handlers are
  taken not to call back into the client nor to write to the message they receive.
* A C++ `throw` leaves the state as it is at the throw: operations that may throw
  return an `Except` value together with the state.
-/

namespace TwitchBot

/-- The `char` elements of a `std::string` or of a `char` buffer. -/
abbrev Str := List Char

/-- The terminator of C strings. -/
def NUL : Char := Char.ofNat 0

/-- The C string found at the start of a `char` sequence: everything before the first NUL. -/
def cstr (s : Str) : Str := s.takeWhile (fun c => c != NUL)

/-- The constant `2 ^ 64`, the number of `uint64_t` values. -/
def U64 : Nat := 2 ^ 64

/-- Subtraction of `uint64_t` values, wrapping modulo `2 ^ 64`. -/
def sub64 (a b : Nat) : Nat := (a % U64 + (U64 - b % U64)) % U64

inductive TwitchIRCClientError where
  | Unknown
  | Unable_To_Connect
  | Unable_To_Auth
  deriving DecidableEq, Repr

structure IRCMessage where
  timestamp : Nat
  username : Str
  message : Str
  deriving DecidableEq, Repr

structure TwitchMessageListener where
  search : Str
  handler : Nat
  deriving DecidableEq, Repr

/-- One call `listener.handler(message, this)`; `name` is the key of the map entry whose
handler was called. -/
structure HandlerCall where
  name : Str
  handler : Nat
  message : IRCMessage
  deriving DecidableEq, Repr

/-! ## The line parser -/

/-- The `strtok_s(.., " ", ..)` loop of `getIRCMessage`: the offsets in `buf` at which the
successive tokens start. A space either is skipped in front of a token or ends the token
being read; `inToken` tells which. `pos` is the offset of the head of the list. -/
def strtokStarts : Str → Nat → Bool → List Nat
  | [], _, _ => []
  | c :: cs, pos, inToken =>
    if c = ' ' then strtokStarts cs (pos + 1) false
    else if inToken then strtokStarts cs (pos + 1) true
    else pos :: strtokStarts cs (pos + 1) true

/-- The C string at token pointer `p` once `strtok_s` has written a NUL over the space
that ends the token. -/
def tokenAt (buf : Str) (p : Nat) : Str := (buf.drop p).takeWhile (fun c => c != ' ')

/-- The C string at `v[0]` after `strtok(v[0], "!")`: leading `!` are skipped, and the
first `!` after the token found there (if any) is overwritten by a NUL. When the string
holds nothing but `!`, nothing is written. -/
def strtokBang (tok : Str) : Str :=
  tok.takeWhile (fun c => c == '!') ++ (tok.dropWhile (fun c => c == '!')).takeWhile (fun c => c != '!')

/-- The member function `TwitchIRCClient::getIRCMessage`. The result `none` is the null
pointer. The buffer `buf` gets the line up to its first NUL (`strcpy`), `v` holds the
token pointers as offsets into `buf`, and `new IRCMessage()` zeroes the timestamp. The
text is read from the line itself, one past the offset of `v[3]`, and the username from
`v[0] + 1`, both as C strings. -/
def getIRCMessage (sentence : Str) : Option IRCMessage :=
  let buf := cstr sentence
  match strtokStarts buf 0 false with
  | v0 :: v1 :: _ :: v3 :: _ =>
    if tokenAt buf v1 = "PRIVMSG".toList then
      some { timestamp := 0
             username := (strtokBang (tokenAt buf v0)).drop 1
             message := cstr (sentence.drop (v3 + 1)) }
    else none
  | _ => none

/-! ## The client state -/

structure TwitchIRCClient where
  /-- What `mTCP.isConnected()` answers. -/
  connected : Bool
  /-- The lines the next calls of `mTCP.receive()` return. -/
  incoming : List Str
  /-- The arguments of the calls of `mTCP.sendRaw` so far, oldest first. -/
  transmitted : List Str
  /-- The values the next calls of `ofGetElapsedTimeMillis()` return. -/
  clock : Nat → Nat
  /-- The handler calls made so far, oldest first. -/
  handlerCalls : List HandlerCall
  hostname : Str
  username : Str
  oauth : Str
  port : Int
  channelname : Str
  lastMessageTimestamp : Nat
  minMessageInterval : Nat
  outgoingMessageQueue : List Str
  /-- The `std::map`, as its entries in iteration order. -/
  messageListeners : List (Str × TwitchMessageListener)

/-- The result of an operation that may throw: the value returned or the error thrown,
and the state left behind. -/
abbrev Outcome (α : Type) := Except TwitchIRCClientError α × TwitchIRCClient

/-- One call of `ofGetElapsedTimeMillis()`: a `uint64_t`. -/
def ofGetElapsedTimeMillis (c : TwitchIRCClient) : Nat × TwitchIRCClient :=
  (c.clock 0 % U64, { c with clock := fun n => c.clock (n + 1) })

/-- The value the `k`-th coming call of `ofGetElapsedTimeMillis()` returns (`k = 0` for
the next call). -/
def reading (c : TwitchIRCClient) (k : Nat) : Nat := c.clock k % U64

/-- The line terminator `"\r\n"`. -/
def CRLF : Str := [Char.ofNat 13, Char.ofNat 10]

/-- The body of the first branch of `sendRaw`: `mTCP.sendRaw(msg + "\r\n")`, then
`lastMessageTimestamp = ofGetElapsedTimeMillis()`, then `return true`. -/
def transmitNow (c : TwitchIRCClient) (msg : Str) : Outcome Bool :=
  let c1 := { c with transmitted := c.transmitted ++ [msg ++ CRLF] }
  let (now, c2) := ofGetElapsedTimeMillis c1
  (.ok true, { c2 with lastMessageTimestamp := now })

/-- The member function `TwitchIRCClient::sendRaw`. The clock is not read when `disobeyTimeout` is set
(`||` short-circuits). -/
def sendRaw (c : TwitchIRCClient) (msg : Str) (disobeyTimeout shouldQueue : Bool) :
    Outcome Bool :=
  if c.connected then
    if disobeyTimeout then transmitNow c msg
    else
      let (now, c1) := ofGetElapsedTimeMillis c
      if sub64 now c1.lastMessageTimestamp > c1.minMessageInterval then transmitNow c1 msg
      else if shouldQueue then
        (.ok false, { c1 with outgoingMessageQueue := c1.outgoingMessageQueue ++ [msg] })
      else (.ok false, c1)
  else (.error .Unable_To_Connect, c)

/-- The raw line `sendChannelMsg` hands to `sendRaw`. -/
def channelMsgLine (channelname msg : Str) : Str :=
  "PRIVMSG #".toList ++ channelname ++ " :".toList ++ msg

/-- The member function `TwitchIRCClient::sendChannelMsg` (the value of `sendRaw` is discarded). -/
def sendChannelMsg (c : TwitchIRCClient) (msg : Str) (disobeyTimeout shouldQueue : Bool) :
    Outcome Unit :=
  match sendRaw c (channelMsgLine c.channelname msg) disobeyTimeout shouldQueue with
  | (.ok _, c1) => (.ok (), c1)
  | (.error e, c1) => (.error e, c1)

/-- The member function `TwitchIRCClient::joinChannel`. -/
def joinChannel (c : TwitchIRCClient) (channelname : Str) : Outcome Unit :=
  let c0 := { c with channelname := channelname }
  match sendRaw c0 ("JOIN #".toList ++ channelname) true false with
  | (.ok _, c1) => (.ok (), c1)
  | (.error e, c1) => (.error e, c1)

/-- The member function `TwitchIRCClient::getMinMessageInterval`. -/
def getMinMessageInterval (c : TwitchIRCClient) : Nat := c.minMessageInterval

/-- The member function `TwitchIRCClient::setMinimumMessageInterval` (the argument is a `uint64_t`). -/
def setMinimumMessageInterval (c : TwitchIRCClient) (millis : Nat) : TwitchIRCClient :=
  { c with minMessageInterval := millis % U64 }

/-! ## The listener registry -/

/-- The order of `std::string` keys: lexicographic on the `char` values. -/
def strLt : Str → Str → Bool
  | [], [] => false
  | [], _ :: _ => true
  | _ :: _, [] => false
  | a :: as, b :: bs => if a.toNat < b.toNat then true else if b.toNat < a.toNat then false else strLt as bs

/-- The assignment `m[key] = value` of a `std::map`: the entry of `key` is replaced, or a
new entry is put at its place in key order. -/
def mapAssign (key : Str) (value : TwitchMessageListener) :
    List (Str × TwitchMessageListener) → List (Str × TwitchMessageListener)
  | [] => [(key, value)]
  | (k, v) :: rest =>
    if key = k then (key, value) :: rest
    else if strLt key k then (key, value) :: (k, v) :: rest
    else (k, v) :: mapAssign key value rest

/-- The lookup `m.find(key)` of a `std::map`; `none` is `m.end()`. -/
def mapFind (key : Str) : List (Str × TwitchMessageListener) → Option TwitchMessageListener
  | [] => none
  | (k, v) :: rest => if k = key then some v else mapFind key rest

/-- The member function `TwitchIRCClient::addTwitchMessageHandler`. -/
def addTwitchMessageHandler (c : TwitchIRCClient) (name search : Str) (handler : Nat) :
    TwitchIRCClient :=
  { c with messageListeners := mapAssign name ⟨search, handler⟩ c.messageListeners }

/-- The member function `TwitchIRCClient::removeTwitchMessageHandler`. -/
def removeTwitchMessageHandler (c : TwitchIRCClient) (name : Str) : TwitchIRCClient :=
  { c with messageListeners := c.messageListeners.filter (fun e => e.1 != name) }

/-- The member function `TwitchIRCClient::clearTwitchMessageHandlers`. -/
def clearTwitchMessageHandlers (c : TwitchIRCClient) : TwitchIRCClient :=
  { c with messageListeners := [] }

/-! ## Dispatch and the poll cycle -/

/-- The call `std::string::find(needle)` on the text that starts at offset `pos`: the offset of the
first occurrence, `none` for `npos`. -/
def findFrom (needle : Str) : Str → Nat → Option Nat
  | [], pos => if needle = [] then some pos else none
  | c :: cs, pos =>
    if needle.isPrefixOf (c :: cs) then some pos else findFrom needle cs (pos + 1)

/-- The test `message->message.find(listener.search) != -1`. The `-1` converts to the
largest `size_t`, which is `npos`, so the test says that an occurrence was found. -/
def findNeMinusOne (text search : Str) : Bool := (findFrom search text 0).isSome

/-- The `for` loop of `update` over `messageListeners`: the handler calls made so far and
the flag `sent`. -/
def listenerLoop (message : IRCMessage) :
    List (Str × TwitchMessageListener) → List HandlerCall × Bool → List HandlerCall × Bool
  | [], acc => acc
  | (name, listener) :: rest, (calls, sent) =>
    if listener.search.length > 1 ∧ name.length > 1 ∧
        findNeMinusOne message.message listener.search = true then
      listenerLoop message rest (calls ++ [⟨name, listener.handler, message⟩], true)
    else listenerLoop message rest (calls, sent)

/-- What `update` does with a chat message: the listener loop from `sent = false`, then
the all-listener (the entry under the empty name) when nothing was sent. The result is the
handler calls made, in order. -/
def dispatch (listeners : List (Str × TwitchMessageListener)) (message : IRCMessage) :
    List HandlerCall :=
  let (calls, sent) := listenerLoop message listeners ([], false)
  match mapFind [] listeners with
  | some l => if !sent then calls ++ [⟨[], l.handler, message⟩] else calls
  | none => calls

/-- The body of the `while` loop of `update` for one received line `msg`. -/
def processLine (timestamp : Nat) (msg : Str) (c : TwitchIRCClient) : Outcome Unit :=
  if msg.take 4 = "PING".toList then
    match sendRaw c (msg.set 1 'O') true false with
    | (.ok _, c1) => (.ok (), c1)
    | (.error e, c1) => (.error e, c1)
  else
    match getIRCMessage msg with
    | some message =>
      (.ok (), { c with handlerCalls := c.handlerCalls ++
                  dispatch c.messageListeners { message with timestamp := timestamp } })
    | none => (.ok (), c)

/-- The `while (msg.length() > 0)` loop of `update`. The list holds what the coming calls
of `mTCP.receive()` return; each call takes one line off `incoming`. -/
def receiveLoop (timestamp : Nat) : List Str → TwitchIRCClient → Outcome Unit
  | [], c => (.ok (), { c with incoming := [] })
  | msg :: rest, c =>
    if msg.length > 0 then
      match processLine timestamp msg { c with incoming := rest } with
      | (.ok _, c1) => receiveLoop timestamp rest c1
      | (.error e, c1) => (.error e, c1)
    else (.ok (), { c with incoming := rest })

/-- The last step of `update`: one attempt to send the front of the queue. -/
def drainQueue (c : TwitchIRCClient) : Outcome Unit :=
  match c.outgoingMessageQueue with
  | [] => (.ok (), c)
  | next :: _ =>
    match sendRaw c next false false with
    | (.ok true, c1) => (.ok (), { c1 with outgoingMessageQueue := c1.outgoingMessageQueue.drop 1 })
    | (.ok false, c1) => (.ok (), c1)
    | (.error e, c1) => (.error e, c1)

/-- The state in which `update` starts reading lines, and the timestamp it took. -/
def updateStart (c : TwitchIRCClient) : Nat × TwitchIRCClient := ofGetElapsedTimeMillis c

/-- The member function `TwitchIRCClient::update`. -/
def update (c : TwitchIRCClient) : Outcome Unit :=
  if c.connected then
    let (timestamp, c1) := updateStart c
    match receiveLoop timestamp c1.incoming c1 with
    | (.ok _, c2) => drainQueue c2
    | (.error e, c2) => (.error e, c2)
  else (.error .Unable_To_Connect, c)

/-- The member function `TwitchIRCClient::connect`; `setupOk` is what `mTCP.setup(hostname, port)` answers,
and the transport is connected from then on exactly when it answered `true`. -/
def connect (c : TwitchIRCClient) (setupOk : Bool) (hostname : Str) (port : Int)
    (username oauth : Str) : Outcome Unit :=
  let c0 := { c with hostname := hostname, username := username, oauth := oauth, port := port,
                     connected := setupOk }
  if !setupOk then (.error .Unable_To_Connect, c0)
  else
    match sendRaw c0 ("PASS ".toList ++ oauth) true false with
    | (.error e, c1) => (.error e, c1)
    | (.ok _, c1) =>
      match sendRaw c1 ("USER ".toList ++ username) true false with
      | (.error e, c2) => (.error e, c2)
      | (.ok _, c2) =>
        match sendRaw c2 ("NICK ".toList ++ username) true false with
        | (.error e, c3) => (.error e, c3)
        | (.ok _, c3) => (.ok (), c3)

/-- The inbound chat line `:<nick>!<host> PRIVMSG #<channel> :<text>`: the prefix
`:<nick>!<host> ` in front of the line `sendChannelMsg` builds. -/
def chatLine (nick host channel text : Str) : Str :=
  ':' :: nick ++ '!' :: host ++ ' ' :: channelMsgLine channel text

/-- A client state for concrete checks: `connected`, the clock stream, the last send
time, the minimum interval, the pending queue, the registry and the lines to receive are
given; nothing was transmitted and no handler was called yet. -/
def clientAt (connected : Bool) (clock : Nat → Nat) (last interval : Nat)
    (queue : List Str) (listeners : List (Str × TwitchMessageListener))
    (incoming : List Str) : TwitchIRCClient :=
  { connected := connected, incoming := incoming, transmitted := [], clock := clock,
    handlerCalls := [], hostname := [], username := [], oauth := [], port := 0,
    channelname := [], lastMessageTimestamp := last, minMessageInterval := interval,
    outgoingMessageQueue := queue, messageListeners := listeners }

/-- A connected client with interval 2000, last send time 0, an empty queue and nothing to
receive, whose clock reads 1000, 1001, 1002 and from then on 10000 times the number of
the reading. -/
def idleClient : TwitchIRCClient :=
  clientAt true (fun n => if n < 3 then 1000 + n else 10000 * n) 0 2000 [] [] []

/-! ## Notions used in the statements -/

/-- A token of a line: not empty, without space and without NUL. -/
def IsWord (w : Str) : Prop := w ≠ [] ∧ ∀ a ∈ w, a ≠ ' ' ∧ a ≠ NUL

/-- The test of the listener loop on one map entry. -/
def fires (message : IRCMessage) (e : Str × TwitchMessageListener) : Bool :=
  decide (e.2.search.length > 1 ∧ e.1.length > 1 ∧
    findNeMinusOne message.message e.2.search = true)

/-- The calls the listener loop makes: one for each entry that passes the test, in
iteration order. -/
def callsOf (message : IRCMessage) (listeners : List (Str × TwitchMessageListener)) :
    List HandlerCall :=
  (listeners.filter (fires message)).map (fun e => ⟨e.1, e.2.handler, message⟩)

/-- How many of the calls were made through the map entry `name`. -/
def timesCalled (name : Str) (calls : List HandlerCall) : Nat :=
  calls.countP (fun call => call.name = name)

/-- The state in which `update` leaves its `while` loop and turns to the queue. -/
def afterReceive (c : TwitchIRCClient) : TwitchIRCClient :=
  (receiveLoop (updateStart c).1 (updateStart c).2.incoming (updateStart c).2).2

/-- The state a call of `sendRaw` leaves. -/
def afterSend (c : TwitchIRCClient) (msg : Str) (disobeyTimeout shouldQueue : Bool) :
    TwitchIRCClient :=
  (sendRaw c msg disobeyTimeout shouldQueue).2

/-- The state a call of `update` leaves. -/
def afterUpdate (c : TwitchIRCClient) : TwitchIRCClient := (update c).2

/-- The state after the three calls `sendRaw(a, false, true)`, `sendRaw(b, false, true)`,
`sendRaw(c, false, true)`, in this order. -/
def afterThreeSends (c : TwitchIRCClient) (m1 m2 m3 : Str) : TwitchIRCClient :=
  afterSend (afterSend (afterSend c m1 false true) m2 false true) m3 false true

/-- The spaces in front of a token are skipped. -/
def skipSpaces (s : Str) : Str := s.dropWhile (fun c => c == ' ')

/-- A token is skipped: everything up to the next space. -/
def skipWord (s : Str) : Str := s.dropWhile (fun c => c != ' ')

/-- The part of a line that starts at the first `char` of its token number `n` (counted
from 0, tokens being the maximal runs of `char`s other than the space) and runs to the
end of the line; empty when the line has no such token. -/
def fromToken : Nat → Str → Str
  | 0, s => skipSpaces s
  | n + 1, s => fromToken n (skipWord (skipSpaces s))

/-- The token number `n` of a line (counted from 0); empty when the line has no such
token. -/
def token (n : Nat) (s : Str) : Str := (fromToken n s).takeWhile (fun c => c != ' ')

/-- The tokens of a line when it is split at every single space: empty tokens count. -/
def strictTokens (s : Str) : List Str := s.splitOn ' '

/-- The tokens of a line when runs of spaces separate and leading and trailing spaces are
dropped: the non-empty ones among the `strictTokens`. -/
def words (s : Str) : List Str := (strictTokens s).filter (fun w => decide (w ≠ []))

/-- A leading `:` is stripped; a text that does not begin with `:` is kept whole. -/
def stripLeadingColon : Str → Str
  | ':' :: r => r
  | t => t

/-- The keys of a `std::map` come in strictly increasing order. -/
def SortedKeys (listeners : List (Str × TwitchMessageListener)) : Prop :=
  (listeners.map Prod.fst).Pairwise (fun a b => strLt a b = true)

instance (listeners : List (Str × TwitchMessageListener)) : Decidable (SortedKeys listeners) :=
  inferInstanceAs (Decidable ((listeners.map Prod.fst).Pairwise (fun a b => strLt a b = true)))

/-- The test `msg.substr(0, 4) == "PING"` of `update`. -/
def isPing (line : Str) : Bool := decide (line.take 4 = "PING".toList)

/-- The lines one call of `update` handles: those in front of the first empty read. -/
def processedLines (lines : List Str) : List Str :=
  lines.takeWhile (fun l => decide (l.length > 0))

/-- The number of `PING` lines one call of `update` handles. -/
def pingCount (lines : List Str) : Nat := ((processedLines lines).filter isPing).length

/-- The keys of a `std::map` are pairwise different. -/
def UniqueKeys (listeners : List (Str × TwitchMessageListener)) : Prop :=
  (listeners.map Prod.fst).Nodup

instance (listeners : List (Str × TwitchMessageListener)) : Decidable (UniqueKeys listeners) :=
  inferInstanceAs (Decidable (listeners.map Prod.fst).Nodup)

/-! ## Lemmas on lists -/

theorem takeWhile_append_all {p : Char → Bool} (w r : Str) (hw : ∀ a ∈ w, p a = true) :
    (w ++ r).takeWhile p = w ++ r.takeWhile p := by
  induction w with
  | nil => rfl
  | cons a w ih =>
    have ha : p a = true := hw a (List.mem_cons_self a w)
    have hw2 : ∀ b ∈ w, p b = true := fun b hb => hw b (List.mem_cons_of_mem a hb)
    simp [List.takeWhile_cons, ha, ih hw2]

theorem takeWhile_append_stop {p : Char → Bool} (w r : Str) (x : Char)
    (hw : ∀ a ∈ w, p a = true) (hx : p x = false) :
    (w ++ x :: r).takeWhile p = w := by
  rw [takeWhile_append_all w (x :: r) hw]
  simp [List.takeWhile_cons, hx]

theorem takeWhile_cons_keep {p : Char → Bool} (x : Char) (r : Str) (hx : p x = true) :
    (x :: r).takeWhile p = x :: r.takeWhile p := by
  simp [List.takeWhile_cons, hx]

theorem drop_word_sep (w r : Str) (x : Char) : (w ++ x :: r).drop (w.length + 1) = r := by
  induction w with
  | nil => rfl
  | cons a w ih => simp

theorem cstr_of_no_nul (s : Str) (h : ∀ a ∈ s, a ≠ NUL) : cstr s = s := by
  have h2 : ∀ a ∈ s, (fun c => c != NUL) a = true := fun a ha => by simpa using h a ha
  have := takeWhile_append_all s [] h2
  simpa [cstr] using this

/-! ## Lemmas on the tokeniser -/

theorem strtokStarts_space (rest : Str) (pos : Nat) (b : Bool) :
    strtokStarts (' ' :: rest) pos b = strtokStarts rest (pos + 1) false := by
  simp [strtokStarts]

theorem strtokStarts_inside (w rest : Str) (pos : Nat) (hw : ∀ a ∈ w, a ≠ ' ') :
    strtokStarts (w ++ rest) pos true = strtokStarts rest (pos + w.length) true := by
  induction w generalizing pos with
  | nil => rfl
  | cons a w ih =>
    have ha : a ≠ ' ' := hw a (List.mem_cons_self a w)
    have hw2 : ∀ b ∈ w, b ≠ ' ' := fun b hb => hw b (List.mem_cons_of_mem a hb)
    have step : strtokStarts (a :: w ++ rest) pos true = strtokStarts (w ++ rest) (pos + 1) true := by
      simp [strtokStarts, ha]
    rw [step, ih (pos + 1) hw2, List.length_cons]
    congr 1
    omega

theorem strtokStarts_token (w rest : Str) (pos : Nat) (hne : w ≠ []) (hw : ∀ a ∈ w, a ≠ ' ') :
    strtokStarts (w ++ rest) pos false = pos :: strtokStarts rest (pos + w.length) true := by
  cases w with
  | nil => exact absurd rfl hne
  | cons a w =>
    have ha : a ≠ ' ' := hw a (List.mem_cons_self a w)
    have hw2 : ∀ b ∈ w, b ≠ ' ' := fun b hb => hw b (List.mem_cons_of_mem a hb)
    have step : strtokStarts (a :: w ++ rest) pos false
        = pos :: strtokStarts (w ++ rest) (pos + 1) true := by
      simp [strtokStarts, ha]
    rw [step, strtokStarts_inside w rest (pos + 1) hw2, List.length_cons]
    congr 2
    omega

theorem drop_add_drop (l : Str) (m n : Nat) : l.drop (m + n) = (l.drop m).drop n := by
  rw [List.drop_drop]

/-- The parser on a line made of three words and a fourth token that starts with `c`:
offsets, command test, username and text. -/
theorem getIRCMessage_four_tokens (w0 w1 w2 tail : Str) (c : Char)
    (h0 : IsWord w0) (h1 : IsWord w1) (h2 : IsWord w2) (hc : c ≠ ' ') (hcn : c ≠ NUL) :
    getIRCMessage (w0 ++ ' ' :: (w1 ++ ' ' :: (w2 ++ ' ' :: (c :: tail))))
      = if w1 = "PRIVMSG".toList then
          some ⟨0, (strtokBang w0).drop 1, cstr tail⟩
        else none := by
  have n0 : ∀ a ∈ w0, (fun x => x != NUL) a = true := fun a ha => by simpa using (h0.2 a ha).2
  have n1 : ∀ a ∈ w1, (fun x => x != NUL) a = true := fun a ha => by simpa using (h1.2 a ha).2
  have n2 : ∀ a ∈ w2, (fun x => x != NUL) a = true := fun a ha => by simpa using (h2.2 a ha).2
  have s0 : ∀ a ∈ w0, (fun x => x != ' ') a = true := fun a ha => by simpa using (h0.2 a ha).1
  have s1 : ∀ a ∈ w1, (fun x => x != ' ') a = true := fun a ha => by simpa using (h1.2 a ha).1
  have sp : ((fun x => x != NUL) ' ') = true := by decide
  have hcn2 : ((fun x => x != NUL) c) = true := by simpa using hcn
  have hbuf : cstr (w0 ++ ' ' :: (w1 ++ ' ' :: (w2 ++ ' ' :: (c :: tail))))
      = w0 ++ ' ' :: (w1 ++ ' ' :: (w2 ++ ' ' :: (c :: cstr tail))) := by
    unfold cstr
    rw [takeWhile_append_all w0 _ n0, takeWhile_cons_keep ' ' _ sp,
      takeWhile_append_all w1 _ n1, takeWhile_cons_keep ' ' _ sp,
      takeWhile_append_all w2 _ n2, takeWhile_cons_keep ' ' _ sp,
      takeWhile_cons_keep c _ hcn2]
  have hstarts : strtokStarts (w0 ++ ' ' :: (w1 ++ ' ' :: (w2 ++ ' ' :: (c :: cstr tail)))) 0 false
      = 0 :: (0 + w0.length + 1) :: (0 + w0.length + 1 + w1.length + 1)
          :: (0 + w0.length + 1 + w1.length + 1 + w2.length + 1)
          :: strtokStarts (cstr tail) (0 + w0.length + 1 + w1.length + 1 + w2.length + 1 + 1) true := by
    rw [strtokStarts_token w0 _ 0 h0.1 (fun a ha => (h0.2 a ha).1), strtokStarts_space,
      strtokStarts_token w1 _ _ h1.1 (fun a ha => (h1.2 a ha).1), strtokStarts_space,
      strtokStarts_token w2 _ _ h2.1 (fun a ha => (h2.2 a ha).1), strtokStarts_space]
    have := strtokStarts_token [c] (cstr tail) (0 + w0.length + 1 + w1.length + 1 + w2.length + 1)
      (by simp) (by simpa using hc)
    simpa using this
  have htok0 : tokenAt (w0 ++ ' ' :: (w1 ++ ' ' :: (w2 ++ ' ' :: (c :: cstr tail)))) 0 = w0 := by
    unfold tokenAt
    rw [List.drop_zero]
    exact takeWhile_append_stop w0 _ ' ' s0 (by decide)
  have htok1 : tokenAt (w0 ++ ' ' :: (w1 ++ ' ' :: (w2 ++ ' ' :: (c :: cstr tail))))
      (0 + w0.length + 1) = w1 := by
    unfold tokenAt
    rw [Nat.zero_add, drop_word_sep]
    exact takeWhile_append_stop w1 _ ' ' s1 (by decide)
  have hdrop : (w0 ++ ' ' :: (w1 ++ ' ' :: (w2 ++ ' ' :: (c :: tail)))).drop
      (0 + w0.length + 1 + w1.length + 1 + w2.length + 1 + 1) = tail := by
    have e : 0 + w0.length + 1 + w1.length + 1 + w2.length + 1 + 1
        = (w0.length + 1) + ((w1.length + 1) + ((w2.length + 1) + 1)) := by omega
    rw [e, drop_add_drop, drop_word_sep, drop_add_drop, drop_word_sep, drop_add_drop,
      drop_word_sep]
    rfl
  unfold getIRCMessage
  simp only [hbuf, hstarts, htok0, htok1, hdrop]

theorem strtokBang_prefix (nick host : Str) (hnick : ∀ a ∈ nick, a ≠ '!') :
    strtokBang (':' :: nick ++ '!' :: host) = ':' :: nick := by
  have h1 : ∀ a ∈ ':' :: nick, (fun x => x != '!') a = true := by
    intro a ha
    rcases List.mem_cons.mp ha with h | h
    · subst h; decide
    · simpa using hnick a h
  have h2 : ((':' :: nick) ++ '!' :: host).takeWhile (fun x => x != '!') = ':' :: nick :=
    takeWhile_append_stop (':' :: nick) host '!' h1 (by decide)
  have h3 : (':' :: nick ++ '!' :: host).takeWhile (fun x => x == '!') = [] := by
    simp [List.takeWhile_cons]
  have h4 : (':' :: nick ++ '!' :: host).dropWhile (fun x => x == '!')
      = (':' :: nick) ++ '!' :: host := by
    simp [List.dropWhile_cons]
  unfold strtokBang
  rw [h3, h4, h2]
  rfl

theorem chatLine_eq (nick host channel text : Str) :
    chatLine nick host channel text
      = (':' :: nick ++ '!' :: host) ++ ' ' :: ("PRIVMSG".toList ++ ' ' ::
          (('#' :: channel) ++ ' ' :: (':' :: text))) := by
  have e1 : "PRIVMSG #".toList = "PRIVMSG".toList ++ [' ', '#'] := by decide
  have e2 : " :".toList = [' ', ':'] := by decide
  simp [chatLine, channelMsgLine, e1, e2]

/-- C1, amended: for every nick without space, `!` and NUL, every host and channel without
space and NUL, and every text without NUL (it may be empty and may hold spaces, `:` and
`!`), `getIRCMessage` on the line `:<nick>!<host> PRIVMSG #<channel> :<text>`, which is
`:<nick>!<host> ` followed by the line `sendChannelMsg` builds, returns a chat message
whose username is the nick and whose text is the text. -/
theorem getIRCMessage_chatLine (nick host channel text : Str)
    (hnick : ∀ a ∈ nick, a ≠ ' ' ∧ a ≠ '!' ∧ a ≠ NUL)
    (hhost : ∀ a ∈ host, a ≠ ' ' ∧ a ≠ NUL)
    (hchannel : ∀ a ∈ channel, a ≠ ' ' ∧ a ≠ NUL)
    (htext : ∀ a ∈ text, a ≠ NUL) :
    getIRCMessage (chatLine nick host channel text) = some ⟨0, nick, text⟩ := by
  have key : getIRCMessage (chatLine nick host channel text) = some ⟨0, nick, text⟩ := by
    have w0 : IsWord (':' :: nick ++ '!' :: host) := by
      refine ⟨by simp, ?_⟩
      intro a ha
      simp only [List.cons_append, List.mem_cons, List.mem_append] at ha
      rcases ha with h | h | h | h
      · subst h; exact ⟨by decide, by decide⟩
      · exact ⟨(hnick a h).1, (hnick a h).2.2⟩
      · subst h; exact ⟨by decide, by decide⟩
      · exact hhost a h
    have w1 : IsWord "PRIVMSG".toList := ⟨by decide, by decide⟩
    have w2 : IsWord ('#' :: channel) := by
      refine ⟨by simp, ?_⟩
      intro a ha
      rcases List.mem_cons.mp ha with h | h
      · subst h; exact ⟨by decide, by decide⟩
      · exact hchannel a h
    rw [chatLine_eq, getIRCMessage_four_tokens _ _ _ text ':' w0 w1 w2 (by decide) (by decide),
      if_pos rfl, strtokBang_prefix nick host (fun a ha => (hnick a ha).2.1),
      cstr_of_no_nul text htext]
    rfl
  exact key

/-- C1 at the line `:nick!host PRIVMSG #chan :hello`. -/
theorem getIRCMessage_chatLine_witness :
    chatLine "nick".toList "host".toList "chan".toList "hello".toList
        = ":nick!host PRIVMSG #chan :hello".toList
      ∧ getIRCMessage (chatLine "nick".toList "host".toList "chan".toList "hello".toList)
        = some ⟨0, "nick".toList, "hello".toList⟩ :=
  ⟨by decide,
  getIRCMessage_chatLine "nick".toList "host".toList "chan".toList "hello".toList
    (by decide) (by decide) (by decide) (by decide)⟩

/-- C1 as stated fails on a text that holds a NUL: the nick `nick` has no space and no
`!`, host and channel have no space, and the text returned for `hi<NUL>yo` is `hi`. -/
theorem getIRCMessage_chatLine_nul_text :
    (∀ a ∈ "nick".toList, a ≠ ' ' ∧ a ≠ '!') ∧ (∀ a ∈ "host".toList, a ≠ ' ')
      ∧ (∀ a ∈ "chan".toList, a ≠ ' ')
      ∧ getIRCMessage (chatLine "nick".toList "host".toList "chan".toList ['h', 'i', NUL, 'y', 'o'])
          = some ⟨0, "nick".toList, ['h', 'i']⟩
      ∧ ¬ (∃ m, getIRCMessage
            (chatLine "nick".toList "host".toList "chan".toList ['h', 'i', NUL, 'y', 'o']) = some m
          ∧ m.username = "nick".toList ∧ m.message = ['h', 'i', NUL, 'y', 'o']) := by
  decide

/-! ## The rate-limited sender -/

theorem sub64_of_le (a b : Nat) (hba : b ≤ a) (ha : a < U64) : sub64 a b = a - b := by
  unfold sub64 U64 at *
  omega

theorem reading_lt (c : TwitchIRCClient) (k : Nat) : reading c k < U64 := by
  unfold reading U64
  omega

/-- What a call of `sendRaw` that returned `true` leaves behind. -/
theorem sendRaw_true_inv (c c1 : TwitchIRCClient) (msg : Str) (d q : Bool)
    (h : sendRaw c msg d q = (Except.ok true, c1)) :
    c1.connected = true ∧ c1.lastMessageTimestamp < U64 := by
  unfold sendRaw at h
  by_cases hc : c.connected = true
  · rw [if_pos hc] at h
    cases d
    · simp only [Bool.false_eq_true, if_false, ofGetElapsedTimeMillis] at h
      by_cases hgt : sub64 (c.clock 0 % U64) c.lastMessageTimestamp > c.minMessageInterval
      · rw [if_pos hgt] at h
        simp only [transmitNow, ofGetElapsedTimeMillis, Prod.mk.injEq] at h
        rw [← h.2]
        exact ⟨hc, by simp only [U64]; omega⟩
      · rw [if_neg hgt] at h
        cases q <;> simp at h
    · simp only [if_true, transmitNow, ofGetElapsedTimeMillis, Prod.mk.injEq] at h
      rw [← h.2]
      exact ⟨hc, by simp only [U64]; omega⟩
  · rw [if_neg hc] at h
    simp at h

/-- C2: after a call of `sendRaw` that transmitted (so that `lastMessageTimestamp` of the
state `c1` it leaves is the time `t1` of that transmission), a call without
`disobeyTimeout` that reads the time `t2 = reading c1 0` with `t1 ≤ t2` and
`t2 - t1 ≤ minMessageInterval` (equality included) returns `false`, transmits nothing and
leaves `lastMessageTimestamp` as it is; the queue gets the message at its end when
`shouldQueue` is set and is unchanged otherwise. -/
theorem sendRaw_within_interval (c0 c1 : TwitchIRCClient) (msg1 msg2 : Str) (d1 q1 q2 : Bool)
    (hfirst : sendRaw c0 msg1 d1 q1 = (Except.ok true, c1))
    (hle : c1.lastMessageTimestamp ≤ reading c1 0)
    (hwithin : reading c1 0 - c1.lastMessageTimestamp ≤ c1.minMessageInterval) :
    (sendRaw c1 msg2 false q2).1 = Except.ok false
      ∧ (sendRaw c1 msg2 false q2).2.transmitted = c1.transmitted
      ∧ (sendRaw c1 msg2 false q2).2.lastMessageTimestamp = c1.lastMessageTimestamp
      ∧ (q2 = true → (sendRaw c1 msg2 false q2).2.outgoingMessageQueue
            = c1.outgoingMessageQueue ++ [msg2])
      ∧ (q2 = true → (sendRaw c1 msg2 false q2).2.outgoingMessageQueue.length
            = c1.outgoingMessageQueue.length + 1)
      ∧ (q2 = false → (sendRaw c1 msg2 false q2).2.outgoingMessageQueue
            = c1.outgoingMessageQueue) := by
  obtain ⟨hconn, _⟩ := sendRaw_true_inv c0 c1 msg1 d1 q1 hfirst
  have hsub : sub64 (c1.clock 0 % U64) c1.lastMessageTimestamp
      = c1.clock 0 % U64 - c1.lastMessageTimestamp :=
    sub64_of_le _ _ hle (reading_lt c1 0)
  have hnot : ¬ sub64 (c1.clock 0 % U64) c1.lastMessageTimestamp > c1.minMessageInterval := by
    rw [hsub]
    exact Nat.not_lt.mpr hwithin
  cases q2 <;> simp [sendRaw, hconn, ofGetElapsedTimeMillis, hnot]

/-- C2 at the boundary: interval 2000, a first send stamped 5000, a second call at 7000. -/
theorem sendRaw_within_interval_witness :
    (sendRaw (clientAt true (fun n => 5000 + 2000 * n) 0 2000 [] [] []) "a".toList true false).1
        = Except.ok true
      ∧ (sendRaw (sendRaw (clientAt true (fun n => 5000 + 2000 * n) 0 2000 [] [] [])
            "a".toList true false).2 "b".toList false true).1 = Except.ok false
      ∧ (sendRaw (sendRaw (clientAt true (fun n => 5000 + 2000 * n) 0 2000 [] [] [])
            "a".toList true false).2 "b".toList false true).2.outgoingMessageQueue
          = ["b".toList] :=
  ⟨rfl,
   (sendRaw_within_interval (clientAt true (fun n => 5000 + 2000 * n) 0 2000 [] [] [])
      (sendRaw (clientAt true (fun n => 5000 + 2000 * n) 0 2000 [] [] [])
        "a".toList true false).2 "a".toList "b".toList true false true rfl
      (by decide) (by decide)).1,
   rfl⟩

/-- C3: in a connected state, when `disobeyTimeout` is set or the time read exceeds
`lastMessageTimestamp` by more than `minMessageInterval` (in `uint64_t` arithmetic, which
is the plain difference when the time read is not before `lastMessageTimestamp`),
`sendRaw` returns `true`, transmits `raw` followed by `"\r\n"` and nothing else, sets
`lastMessageTimestamp` to the time it reads for that (the next reading of the clock: the
first of the call with `disobeyTimeout`, the second without), and leaves the queue as it
is, whatever `shouldQueue`. -/
theorem sendRaw_transmits (c : TwitchIRCClient) (raw : Str) (d q : Bool)
    (hconn : c.connected = true)
    (h : d = true ∨ sub64 (reading c 0) c.lastMessageTimestamp > c.minMessageInterval) :
    (sendRaw c raw d q).1 = Except.ok true
      ∧ (sendRaw c raw d q).2.transmitted = c.transmitted ++ [raw ++ CRLF]
      ∧ (sendRaw c raw d q).2.lastMessageTimestamp = reading c (if d then 0 else 1)
      ∧ (sendRaw c raw d q).2.outgoingMessageQueue = c.outgoingMessageQueue
      ∧ (c.lastMessageTimestamp + c.minMessageInterval < reading c 0 →
          sub64 (reading c 0) c.lastMessageTimestamp > c.minMessageInterval) := by
  refine ⟨?_, ?_, ?_, ?_, ?_⟩
  · cases d
    · have h2 : sub64 (c.clock 0 % U64) c.lastMessageTimestamp > c.minMessageInterval := by
        simpa [reading] using h
      simp [sendRaw, hconn, ofGetElapsedTimeMillis, transmitNow, h2]
    · simp [sendRaw, hconn, transmitNow, ofGetElapsedTimeMillis]
  · cases d
    · have h2 : sub64 (c.clock 0 % U64) c.lastMessageTimestamp > c.minMessageInterval := by
        simpa [reading] using h
      simp [sendRaw, hconn, ofGetElapsedTimeMillis, transmitNow, h2]
    · simp [sendRaw, hconn, transmitNow, ofGetElapsedTimeMillis]
  · cases d
    · have h2 : sub64 (c.clock 0 % U64) c.lastMessageTimestamp > c.minMessageInterval := by
        simpa [reading] using h
      simp [sendRaw, hconn, ofGetElapsedTimeMillis, transmitNow, h2, reading]
    · simp [sendRaw, hconn, transmitNow, ofGetElapsedTimeMillis, reading]
  · cases d
    · have h2 : sub64 (c.clock 0 % U64) c.lastMessageTimestamp > c.minMessageInterval := by
        simpa [reading] using h
      simp [sendRaw, hconn, ofGetElapsedTimeMillis, transmitNow, h2]
    · simp [sendRaw, hconn, transmitNow, ofGetElapsedTimeMillis]
  · intro hlt
    have hr := reading_lt c 0
    rw [sub64_of_le _ _ (by omega) hr]
    omega

/-- C3 on a state last stamped 1000 with interval 2000: a call at 3001 with
`shouldQueue` transmits. -/
theorem sendRaw_transmits_witness :
    (sendRaw (clientAt true (fun _ => 3001) 1000 2000 ["x".toList] [] []) "hi".toList false
        true).1 = Except.ok true
      ∧ (sendRaw (clientAt true (fun _ => 3001) 1000 2000 ["x".toList] [] []) "hi".toList false
        true).2.transmitted = ["hi".toList ++ CRLF] :=
  ⟨(sendRaw_transmits (clientAt true (fun _ => 3001) 1000 2000 ["x".toList] [] [])
      "hi".toList false true rfl (Or.inr (by decide))).1,
   (sendRaw_transmits (clientAt true (fun _ => 3001) 1000 2000 ["x".toList] [] [])
      "hi".toList false true rfl (Or.inr (by decide))).2.1⟩

/-- C10: `sendRaw` throws `Unable_To_Connect` exactly when the transport reports that it
is not connected, it throws nothing else, and when it throws the whole state is as before:
nothing transmitted, nothing queued, `lastMessageTimestamp` unchanged, whatever the
flags. -/
theorem sendRaw_disconnected (c : TwitchIRCClient) (msg : Str) (d q : Bool) :
    ((sendRaw c msg d q).1 = Except.error TwitchIRCClientError.Unable_To_Connect
        ↔ c.connected = false)
      ∧ (∀ e, (sendRaw c msg d q).1 = Except.error e → c.connected = false)
      ∧ (c.connected = false → (sendRaw c msg d q).2 = c) := by
  have hok : c.connected = true → ∃ b, (sendRaw c msg d q).1 = Except.ok b := by
    intro hc
    unfold sendRaw
    rw [if_pos hc]
    cases d
    · simp only [Bool.false_eq_true, if_false, ofGetElapsedTimeMillis]
      split
      · exact ⟨true, rfl⟩
      · cases q
        · exact ⟨false, rfl⟩
        · exact ⟨false, rfl⟩
    · exact ⟨true, rfl⟩
  have herr : ∀ e, (sendRaw c msg d q).1 = Except.error e → c.connected = false := by
    intro e he
    cases hc : c.connected
    · rfl
    · obtain ⟨b, hb⟩ := hok hc
      rw [hb] at he
      cases he
  refine ⟨⟨fun h => herr _ h, fun h => ?_⟩, herr, fun h => ?_⟩
  · simp [sendRaw, h]
  · simp [sendRaw, h]

/-- C10 on a disconnected state, with both flags set. -/
theorem sendRaw_disconnected_witness :
    (sendRaw (clientAt false (fun _ => 9000) 0 2000 [] [] []) "hi".toList true true).2
      = clientAt false (fun _ => 9000) 0 2000 [] [] [] :=
  (sendRaw_disconnected (clientAt false (fun _ => 9000) 0 2000 [] [] []) "hi".toList true
    true).2.2 rfl

/-! ## Dispatch -/

theorem findFrom_isSome_iff (needle hay : Str) (pos : Nat) :
    (findFrom needle hay pos).isSome = true ↔ needle <:+: hay := by
  induction hay generalizing pos with
  | nil =>
    rw [List.infix_nil]
    by_cases h : needle = [] <;> simp [findFrom, h]
  | cons c cs ih =>
    rw [List.infix_cons_iff]
    by_cases h : needle.isPrefixOf (c :: cs) = true
    · have hp : needle <+: c :: cs := List.isPrefixOf_iff_prefix.mp h
      simp [findFrom, h, hp]
    · have hp : ¬ needle <+: c :: cs := fun hp => h (List.isPrefixOf_iff_prefix.mpr hp)
      simp only [findFrom, h, if_false, Bool.false_eq_true]
      rw [ih (pos + 1)]
      simp [hp]

theorem fires_iff (message : IRCMessage) (name : Str) (l : TwitchMessageListener) :
    fires message (name, l) = true
      ↔ l.search.length > 1 ∧ name.length > 1 ∧ l.search <:+: message.message := by
  simp [fires, findNeMinusOne, findFrom_isSome_iff]

theorem listenerLoop_eq (message : IRCMessage) (ls : List (Str × TwitchMessageListener))
    (calls : List HandlerCall) (sent : Bool) :
    listenerLoop message ls (calls, sent)
      = (calls ++ callsOf message ls, sent || !(callsOf message ls).isEmpty) := by
  induction ls generalizing calls sent with
  | nil => simp [listenerLoop, callsOf]
  | cons e rest ih =>
    obtain ⟨name, l⟩ := e
    by_cases h : l.search.length > 1 ∧ name.length > 1 ∧
        findNeMinusOne message.message l.search = true
    · have hf : fires message (name, l) = true := by simpa [fires] using h
      rw [listenerLoop, if_pos h, ih]
      simp [callsOf, List.filter_cons, hf]
    · have hf : fires message (name, l) = false := by simpa [fires] using h
      rw [listenerLoop, if_neg h, ih]
      simp [callsOf, List.filter_cons, hf]

/-- The calls of `dispatch`: those of the listener loop, then the all-listener when the
loop made none and the empty name is registered. -/
theorem dispatch_eq (ls : List (Str × TwitchMessageListener)) (message : IRCMessage) :
    dispatch ls message
      = callsOf message ls ++
          (match mapFind [] ls with
           | some l => if callsOf message ls = [] then [⟨[], l.handler, message⟩] else []
           | none => []) := by
  unfold dispatch
  rw [listenerLoop_eq]
  cases hfind : mapFind [] ls with
  | none => simp
  | some l =>
    by_cases hc : callsOf message ls = []
    · simp [hc]
    · simp [hc]

theorem callsOf_name (message : IRCMessage) (ls : List (Str × TwitchMessageListener))
    (call : HandlerCall) (h : call ∈ callsOf message ls) :
    ∃ l, (call.name, l) ∈ ls ∧ fires message (call.name, l) = true
      ∧ call = ⟨call.name, l.handler, message⟩ := by
  unfold callsOf at h
  rw [List.mem_map] at h
  obtain ⟨e, he, hcall⟩ := h
  rw [List.mem_filter] at he
  subst hcall
  exact ⟨e.2, he.1, he.2, rfl⟩

theorem timesCalled_callsOf_absent (message : IRCMessage)
    (ls : List (Str × TwitchMessageListener)) (name : Str)
    (h : ∀ l, (name, l) ∈ ls → fires message (name, l) = false) :
    timesCalled name (callsOf message ls) = 0 := by
  unfold timesCalled
  rw [List.countP_eq_zero]
  intro call hcall hname
  obtain ⟨l, hmem, hf, _⟩ := callsOf_name message ls call hcall
  have hname2 : call.name = name := by simpa using hname
  rw [hname2] at hmem hf
  rw [h l hmem] at hf
  cases hf

theorem timesCalled_callsOf (message : IRCMessage) (ls : List (Str × TwitchMessageListener))
    (name : Str) (l : TwitchMessageListener) (hu : UniqueKeys ls) (hmem : (name, l) ∈ ls) :
    timesCalled name (callsOf message ls) = if fires message (name, l) = true then 1 else 0 := by
  induction ls with
  | nil => cases hmem
  | cons e rest ih =>
    have hu2 : e.1 ∉ rest.map Prod.fst ∧ UniqueKeys rest := by
      unfold UniqueKeys at hu ⊢
      rw [List.map_cons] at hu
      exact List.nodup_cons.mp hu
    have hsplit : callsOf message (e :: rest)
        = (if fires message e = true then [⟨e.1, e.2.handler, message⟩] else [])
            ++ callsOf message rest := by
      by_cases hf : fires message e = true
      · simp [callsOf, List.filter_cons, hf]
      · simp [callsOf, List.filter_cons, hf]
    rw [hsplit]
    unfold timesCalled
    rw [List.countP_append]
    rcases List.mem_cons.mp hmem with h | h
    · subst h
      have hrest : timesCalled name (callsOf message rest) = 0 := by
        apply timesCalled_callsOf_absent
        intro l2 hl2
        exact absurd (List.mem_map.mpr ⟨(name, l2), hl2, rfl⟩) hu2.1
      unfold timesCalled at hrest
      rw [hrest]
      by_cases hf : fires message (name, l) = true
      · simp [hf]
      · simp [hf]
    · have hne : e.1 ≠ name := by
        intro he
        apply hu2.1
        rw [he]
        exact List.mem_map.mpr ⟨(name, l), h, rfl⟩
      have ih2 := ih hu2.2 h
      unfold timesCalled at ih2
      rw [ih2]
      by_cases hf : fires message e = true
      · simp [hf, hne]
      · simp [hf]

theorem timesCalled_dispatch (ls : List (Str × TwitchMessageListener)) (message : IRCMessage)
    (name : Str) (hname : name ≠ []) :
    timesCalled name (dispatch ls message) = timesCalled name (callsOf message ls) := by
  have hne : ¬ ([] : Str) = name := fun h => hname h.symm
  rw [dispatch_eq]
  unfold timesCalled
  rw [List.countP_append]
  cases mapFind [] ls with
  | none => simp
  | some l =>
    by_cases hc : callsOf message ls = []
    · simp [hc, hne]
    · simp [hc]

theorem callsOf_name_ne_nil (message : IRCMessage) (ls : List (Str × TwitchMessageListener))
    (call : HandlerCall) (h : call ∈ callsOf message ls) : call.name ≠ [] := by
  obtain ⟨l, _, hf, _⟩ := callsOf_name message ls call h
  have := ((fires_iff message call.name l).mp hf).2.1
  intro hnil
  rw [hnil] at this
  simp at this

/-- C6: in the dispatch of `update`, a listener registered under a non-empty name whose
search string is a single `char`, or whose name is a single `char`, is never called,
whatever the message. -/
theorem dispatch_guard (ls : List (Str × TwitchMessageListener)) (message : IRCMessage)
    (name : Str) (l : TwitchMessageListener) (hu : UniqueKeys ls) (hmem : (name, l) ∈ ls)
    (hnamed : name ≠ []) (hshort : l.search.length = 1 ∨ name.length = 1) :
    timesCalled name (dispatch ls message) = 0
      ∧ ∀ call ∈ dispatch ls message, call.name ≠ name := by
  have hf : ¬ fires message (name, l) = true := by
    intro hf
    have h := (fires_iff message name l).mp hf
    omega
  have hzero : timesCalled name (dispatch ls message) = 0 := by
    rw [timesCalled_dispatch ls message name hnamed, timesCalled_callsOf message ls name l hu hmem,
      if_neg hf]
  refine ⟨hzero, ?_⟩
  intro call hcall hcn
  unfold timesCalled at hzero
  rw [List.countP_eq_zero] at hzero
  exact hzero call hcall (by simpa using hcn)

/-- C6 on a text that holds both search strings: neither the listener with the
one-`char` search string nor the one with the one-`char` name is called. -/
theorem dispatch_guard_witness :
    timesCalled "kw".toList
        (dispatch [("k".toList, ⟨"foo".toList, 1⟩), ("kw".toList, ⟨"o".toList, 2⟩)]
          ⟨0, "nick".toList, "foo".toList⟩) = 0
      ∧ timesCalled "k".toList
        (dispatch [("k".toList, ⟨"foo".toList, 1⟩), ("kw".toList, ⟨"o".toList, 2⟩)]
          ⟨0, "nick".toList, "foo".toList⟩) = 0 :=
  ⟨(dispatch_guard [("k".toList, ⟨"foo".toList, 1⟩), ("kw".toList, ⟨"o".toList, 2⟩)]
      ⟨0, "nick".toList, "foo".toList⟩ "kw".toList ⟨"o".toList, 2⟩
      (by decide) (by decide) (by decide) (Or.inl (by decide))).1,
   (dispatch_guard [("k".toList, ⟨"foo".toList, 1⟩), ("kw".toList, ⟨"o".toList, 2⟩)]
      ⟨0, "nick".toList, "foo".toList⟩ "k".toList ⟨"foo".toList, 1⟩
      (by decide) (by decide) (by decide) (Or.inr (by decide))).1⟩

/-! ## The poll cycle -/

theorem sendRaw_disobey (c : TwitchIRCClient) (msg : Str) (q : Bool) (hconn : c.connected = true) :
    sendRaw c msg true q
      = (Except.ok true,
          { c with transmitted := c.transmitted ++ [msg ++ CRLF]
                   clock := fun n => c.clock (n + 1)
                   lastMessageTimestamp := reading c 0 }) := by
  simp [sendRaw, hconn, transmitNow, ofGetElapsedTimeMillis, reading]

theorem set_one_of_ping (line : Str) (h : line.take 4 = "PING".toList) :
    line.set 1 'O' = "PONG".toList ++ line.drop 4 := by
  match line, h with
  | [], h => simp at h
  | [_], h => simp at h
  | [_, _], h => simp at h
  | [_, _, _], h => simp at h
  | a :: b :: x :: d :: rest, h =>
    have e : "PING".toList = ['P', 'I', 'N', 'G'] := by decide
    have e2 : "PONG".toList = ['P', 'O', 'N', 'G'] := by decide
    rw [e] at h
    rw [e2]
    simp only [List.take_succ_cons, List.take_zero, List.cons.injEq, and_true] at h
    obtain ⟨ha, _, hx, hd⟩ := h
    subst ha hx hd
    rfl

theorem processLine_ping (ts : Nat) (line : Str) (c : TwitchIRCClient)
    (hconn : c.connected = true) (h : line.take 4 = "PING".toList) :
    processLine ts line c
      = (Except.ok (),
          { c with transmitted := c.transmitted ++ [line.set 1 'O' ++ CRLF]
                   clock := fun n => c.clock (n + 1)
                   lastMessageTimestamp := reading c 0 }) := by
  unfold processLine
  rw [if_pos h, sendRaw_disobey c _ false hconn]

/-- The loop body on a connected client does not throw and leaves `connected`, the queue
and the minimum interval as they are. -/
theorem processLine_frame (ts : Nat) (line : Str) (c : TwitchIRCClient)
    (hconn : c.connected = true) :
    (processLine ts line c).1 = Except.ok ()
      ∧ (processLine ts line c).2.connected = true
      ∧ (processLine ts line c).2.outgoingMessageQueue = c.outgoingMessageQueue
      ∧ (processLine ts line c).2.minMessageInterval = c.minMessageInterval := by
  by_cases h : line.take 4 = "PING".toList
  · rw [processLine_ping ts line c hconn h]
    exact ⟨rfl, hconn, rfl, rfl⟩
  · unfold processLine
    rw [if_neg h]
    cases getIRCMessage line with
    | none => exact ⟨rfl, hconn, rfl, rfl⟩
    | some m => exact ⟨rfl, hconn, rfl, rfl⟩

/-- The `while` loop on a connected client does not throw and leaves `connected`, the
queue and the minimum interval as they are. -/
theorem receiveLoop_frame (ts : Nat) (lines : List Str) (c : TwitchIRCClient)
    (hconn : c.connected = true) :
    (receiveLoop ts lines c).1 = Except.ok ()
      ∧ (receiveLoop ts lines c).2.connected = true
      ∧ (receiveLoop ts lines c).2.outgoingMessageQueue = c.outgoingMessageQueue
      ∧ (receiveLoop ts lines c).2.minMessageInterval = c.minMessageInterval := by
  induction lines generalizing c with
  | nil => exact ⟨rfl, hconn, rfl, rfl⟩
  | cons msg rest ih =>
    unfold receiveLoop
    by_cases hlen : msg.length > 0
    · rw [if_pos hlen]
      obtain ⟨h1, h2, h3, h4⟩ := processLine_frame ts msg { c with incoming := rest } hconn
      rcases hp : processLine ts msg { c with incoming := rest } with ⟨r, c1⟩
      rw [hp] at h1 h2 h3 h4
      simp only at h1 h2 h3 h4
      subst h1
      simp only
      obtain ⟨i1, i2, i3, i4⟩ := ih c1 h2
      exact ⟨i1, i2, by rw [i3, h3], by rw [i4, h4]⟩
    · rw [if_neg hlen]
      exact ⟨rfl, hconn, rfl, rfl⟩

theorem sendRaw_obey (c : TwitchIRCClient) (msg : Str) (q : Bool) (hconn : c.connected = true) :
    sendRaw c msg false q
      = if sub64 (reading c 0) c.lastMessageTimestamp > c.minMessageInterval then
          (Except.ok true,
            { c with transmitted := c.transmitted ++ [msg ++ CRLF]
                     clock := fun n => c.clock (n + 1 + 1)
                     lastMessageTimestamp := reading c 1 })
        else
          (Except.ok false,
            { c with clock := fun n => c.clock (n + 1)
                     outgoingMessageQueue :=
                       if q = true then c.outgoingMessageQueue ++ [msg]
                       else c.outgoingMessageQueue }) := by
  by_cases h : sub64 (reading c 0) c.lastMessageTimestamp > c.minMessageInterval
  · have h2 : sub64 (c.clock 0 % U64) c.lastMessageTimestamp > c.minMessageInterval := h
    rw [if_pos h]
    simp [sendRaw, hconn, transmitNow, ofGetElapsedTimeMillis, reading, h2]
  · have h2 : ¬ sub64 (c.clock 0 % U64) c.lastMessageTimestamp > c.minMessageInterval := h
    rw [if_neg h]
    cases q <;> simp [sendRaw, hconn, ofGetElapsedTimeMillis, h2]

theorem update_eq_drain (c : TwitchIRCClient) (hconn : c.connected = true) :
    update c = drainQueue (afterReceive c) := by
  have hc1 : (updateStart c).2.connected = true := hconn
  have hok := (receiveLoop_frame (updateStart c).1 (updateStart c).2.incoming (updateStart c).2 hc1).1
  unfold update
  rw [if_pos hconn]
  show (match receiveLoop (updateStart c).1 (updateStart c).2.incoming (updateStart c).2 with
        | (Except.ok _, c2) => drainQueue c2
        | (Except.error e, c2) => (Except.error e, c2))
      = drainQueue (receiveLoop (updateStart c).1 (updateStart c).2.incoming (updateStart c).2).2
  rcases hr : receiveLoop (updateStart c).1 (updateStart c).2.incoming (updateStart c).2 with ⟨r, c2⟩
  rw [hr] at hok
  simp only at hok
  subst hok
  rfl

theorem afterReceive_frame (c : TwitchIRCClient) (hconn : c.connected = true) :
    (afterReceive c).connected = true
      ∧ (afterReceive c).outgoingMessageQueue = c.outgoingMessageQueue
      ∧ (afterReceive c).minMessageInterval = c.minMessageInterval := by
  have hc1 : (updateStart c).2.connected = true := hconn
  obtain ⟨_, h2, h3, h4⟩ :=
    receiveLoop_frame (updateStart c).1 (updateStart c).2.incoming (updateStart c).2 hc1
  exact ⟨h2, h3, h4⟩

/-- C7: for a connected client and a line whose first four `char`s are `PING`, the loop
body of `update` transmits that line with `PING` replaced by `PONG` and `"\r\n"` after it,
whatever the time and the last send time are, stamps the send, and calls no handler,
whatever the rest of the line is. A call of `update` that receives just this line, with
nothing queued, transmits just this reply and calls no handler. -/
theorem update_ping (ts : Nat) (line : Str) (c : TwitchIRCClient)
    (hconn : c.connected = true) (h : line.take 4 = "PING".toList) :
    processLine ts line c
        = (Except.ok (),
            { c with transmitted := c.transmitted ++ [("PONG".toList ++ line.drop 4) ++ CRLF]
                     clock := fun n => c.clock (n + 1)
                     lastMessageTimestamp := reading c 0 })
      ∧ (processLine ts line c).2.handlerCalls = c.handlerCalls
      ∧ (c.incoming = [line] → c.outgoingMessageQueue = [] →
          (update c).1 = Except.ok ()
            ∧ (update c).2.transmitted
                = c.transmitted ++ [("PONG".toList ++ line.drop 4) ++ CRLF]
            ∧ (update c).2.handlerCalls = c.handlerCalls) := by
  have hbody := processLine_ping ts line c hconn h
  rw [set_one_of_ping line h] at hbody
  refine ⟨hbody, by rw [hbody], ?_⟩
  intro hin hq
  have hlen : line.length > 0 := by
    cases line with
    | nil => simp at h
    | cons a l => simp
  have hc1 : (updateStart c).2.connected = true := hconn
  have hmid : afterReceive c
      = { c with transmitted := c.transmitted ++ [("PONG".toList ++ line.drop 4) ++ CRLF]
                 clock := fun n => c.clock (n + 1 + 1)
                 lastMessageTimestamp := reading c 1
                 incoming := [] } := by
    have hb := processLine_ping (updateStart c).1 line { (updateStart c).2 with incoming := [] }
      hc1 h
    rw [set_one_of_ping line h] at hb
    unfold afterReceive
    have hin1 : (updateStart c).2.incoming = [line] := hin
    rw [hin1]
    unfold receiveLoop
    rw [if_pos hlen, hb]
    rfl
  rw [update_eq_drain c hconn, hmid]
  unfold drainQueue
  simp [hq]

/-- C7 on `PING :tmi.twitch.tv`, and on a line that would parse as a chat message, with
an all-listener registered. -/
theorem update_ping_witness :
    (update (clientAt true (fun n => 100 + n) 99 2000 [] [([], ⟨"*".toList, 0⟩)]
        ["PING :tmi.twitch.tv".toList])).2.transmitted
        = ["PONG :tmi.twitch.tv".toList ++ CRLF]
      ∧ (update (clientAt true (fun n => 100 + n) 99 2000 [] [([], ⟨"*".toList, 0⟩)]
        ["PING :tmi.twitch.tv".toList])).2.handlerCalls = []
      ∧ (getIRCMessage "PING PRIVMSG #chan :hello".toList).isSome = true
      ∧ (update (clientAt true (fun n => 100 + n) 99 2000 [] [([], ⟨"*".toList, 0⟩)]
        ["PING PRIVMSG #chan :hello".toList])).2.handlerCalls = [] :=
  ⟨((update_ping 0 "PING :tmi.twitch.tv".toList
      (clientAt true (fun n => 100 + n) 99 2000 [] [([], ⟨"*".toList, 0⟩)]
        ["PING :tmi.twitch.tv".toList]) rfl (by decide)).2.2 rfl rfl).2.1,
   ((update_ping 0 "PING :tmi.twitch.tv".toList
      (clientAt true (fun n => 100 + n) 99 2000 [] [([], ⟨"*".toList, 0⟩)]
        ["PING :tmi.twitch.tv".toList]) rfl (by decide)).2.2 rfl rfl).2.2,
   by decide,
   ((update_ping 0 "PING PRIVMSG #chan :hello".toList
      (clientAt true (fun n => 100 + n) 99 2000 [] [([], ⟨"*".toList, 0⟩)]
        ["PING PRIVMSG #chan :hello".toList]) rfl (by decide)).2.2 rfl rfl).2.2⟩

/-- C9: a call of `update` on a connected client does not throw, its `while` loop leaves
the queue as it is, and its last step transmits at most one queued entry: when the queue
is not empty and the rate limiter lets the send through, the front entry followed by
`"\r\n"` is the one thing transmitted after the loop and the queue is left with the
other entries in their order; in every other case nothing is transmitted after the loop
and the queue is as before the call. -/
theorem update_drain_one (c : TwitchIRCClient) (hconn : c.connected = true) :
    (update c).1 = Except.ok ()
      ∧ (afterReceive c).outgoingMessageQueue = c.outgoingMessageQueue
      ∧ (∀ front rest, c.outgoingMessageQueue = front :: rest →
          sub64 (reading (afterReceive c) 0) (afterReceive c).lastMessageTimestamp
              > c.minMessageInterval →
          (afterUpdate c).transmitted = (afterReceive c).transmitted ++ [front ++ CRLF]
            ∧ (afterUpdate c).outgoingMessageQueue = rest)
      ∧ ((c.outgoingMessageQueue = [] ∨
            ¬ sub64 (reading (afterReceive c) 0) (afterReceive c).lastMessageTimestamp
              > c.minMessageInterval) →
          (afterUpdate c).transmitted = (afterReceive c).transmitted
            ∧ (afterUpdate c).outgoingMessageQueue = c.outgoingMessageQueue) := by
  obtain ⟨mconn, mq, mmin⟩ := afterReceive_frame c hconn
  have hupd := update_eq_drain c hconn
  unfold afterUpdate
  rw [hupd]
  cases hq : c.outgoingMessageQueue with
  | nil =>
    have hq2 : (afterReceive c).outgoingMessageQueue = [] := by rw [mq, hq]
    have hd : drainQueue (afterReceive c) = (Except.ok (), afterReceive c) := by
      unfold drainQueue
      rw [hq2]
    rw [hd]
    refine ⟨rfl, by rw [hq2], ?_, ?_⟩
    · intro front rest hfr
      cases hfr
    · intro _
      exact ⟨rfl, hq2⟩
  | cons next others =>
    have hq2 : (afterReceive c).outgoingMessageQueue = next :: others := by rw [mq, hq]
    by_cases hgt : sub64 (reading (afterReceive c) 0) (afterReceive c).lastMessageTimestamp
        > c.minMessageInterval
    · have hgt2 : sub64 (reading (afterReceive c) 0) (afterReceive c).lastMessageTimestamp
          > (afterReceive c).minMessageInterval := by rw [mmin]; exact hgt
      have hd : drainQueue (afterReceive c)
          = (Except.ok (),
              { afterReceive c with
                  transmitted := (afterReceive c).transmitted ++ [next ++ CRLF]
                  clock := fun n => (afterReceive c).clock (n + 1 + 1)
                  lastMessageTimestamp := reading (afterReceive c) 1
                  outgoingMessageQueue := others }) := by
        unfold drainQueue
        rw [hq2]
        simp only [sendRaw_obey (afterReceive c) next false mconn, if_pos hgt2, hq2,
          List.drop_succ_cons, List.drop_zero]
      rw [hd]
      refine ⟨rfl, hq2, ?_, ?_⟩
      · intro front rest hfr _
        cases hfr
        exact ⟨rfl, rfl⟩
      · intro hor
        rcases hor with h | h
        · cases h
        · exact absurd hgt h
    · have hgt2 : ¬ sub64 (reading (afterReceive c) 0) (afterReceive c).lastMessageTimestamp
          > (afterReceive c).minMessageInterval := by rw [mmin]; exact hgt
      have hd : drainQueue (afterReceive c)
          = (Except.ok (),
              { afterReceive c with clock := fun n => (afterReceive c).clock (n + 1) }) := by
        unfold drainQueue
        rw [hq2]
        simp only [sendRaw_obey (afterReceive c) next false mconn, if_neg hgt2,
          Bool.false_eq_true, if_false]
      rw [hd]
      refine ⟨rfl, hq2, ?_, ?_⟩
      · intro front rest _ hcon
        exact absurd hcon hgt
      · intro _
        exact ⟨rfl, hq2⟩

/-- C9 on a queue of two entries: a poll after the interval sends the front entry only, a
poll within the interval leaves the queue as it is. -/
theorem update_drain_one_witness :
    ((afterUpdate (clientAt true (fun n => 5000 + n) 0 2000 ["A".toList, "B".toList] [] [])).transmitted
        = ["A".toList ++ CRLF]
      ∧ (afterUpdate (clientAt true (fun n => 5000 + n) 0 2000 ["A".toList, "B".toList] [] [])).outgoingMessageQueue
        = ["B".toList])
      ∧ (afterUpdate (clientAt true (fun n => 1000 + n) 0 2000 ["A".toList, "B".toList] [] [])).outgoingMessageQueue
        = ["A".toList, "B".toList] :=
  ⟨(update_drain_one (clientAt true (fun n => 5000 + n) 0 2000 ["A".toList, "B".toList] [] [])
      rfl).2.2.1 "A".toList ["B".toList] rfl (by decide),
   ((update_drain_one (clientAt true (fun n => 1000 + n) 0 2000 ["A".toList, "B".toList] [] [])
      rfl).2.2.2 (Or.inr (by decide))).2⟩

theorem sendRaw_queue_eq (c : TwitchIRCClient) (msg : Str) (hconn : c.connected = true)
    (hle : c.lastMessageTimestamp ≤ reading c 0)
    (hwithin : reading c 0 - c.lastMessageTimestamp ≤ c.minMessageInterval) :
    sendRaw c msg false true
      = (Except.ok false,
          { c with clock := fun n => c.clock (n + 1)
                   outgoingMessageQueue := c.outgoingMessageQueue ++ [msg] }) := by
  have hnot : ¬ sub64 (reading c 0) c.lastMessageTimestamp > c.minMessageInterval := by
    rw [sub64_of_le _ _ hle (reading_lt c 0)]
    exact Nat.not_lt.mpr hwithin
  rw [sendRaw_obey c msg true hconn, if_neg hnot]
  rfl

theorem sub64_gt_of_lt (now last interval : Nat) (hnow : now < U64)
    (h : last + interval < now) : sub64 now last > interval := by
  rw [sub64_of_le now last (by omega) hnow]
  omega

theorem drainQueue_send (m : TwitchIRCClient) (front : Str) (rest : List Str)
    (hconn : m.connected = true) (hq : m.outgoingMessageQueue = front :: rest)
    (hgt : sub64 (reading m 0) m.lastMessageTimestamp > m.minMessageInterval) :
    drainQueue m
      = (Except.ok (),
          { m with transmitted := m.transmitted ++ [front ++ CRLF]
                   clock := fun n => m.clock (n + 1 + 1)
                   lastMessageTimestamp := reading m 1
                   outgoingMessageQueue := rest }) := by
  unfold drainQueue
  rw [hq]
  simp only [sendRaw_obey m front false hconn, if_pos hgt, hq, List.drop_succ_cons,
    List.drop_zero]

/-- A poll with nothing to receive, a queue `front :: rest` and the interval elapsed at
the rate check (the second clock reading of the call): the front entry is sent. -/
theorem update_idle_send (c : TwitchIRCClient) (front : Str) (rest : List Str)
    (hconn : c.connected = true) (hin : c.incoming = [])
    (hq : c.outgoingMessageQueue = front :: rest)
    (hgt : c.lastMessageTimestamp + c.minMessageInterval < reading c 1) :
    update c
      = (Except.ok (),
          { c with transmitted := c.transmitted ++ [front ++ CRLF]
                   clock := fun n => c.clock (n + 1 + 1 + 1)
                   lastMessageTimestamp := reading c 2
                   outgoingMessageQueue := rest
                   incoming := [] }) := by
  have hmid : afterReceive c = { c with clock := fun n => c.clock (n + 1), incoming := [] } := by
    unfold afterReceive
    have hin1 : (updateStart c).2.incoming = [] := hin
    rw [hin1]
    rfl
  have hgt2 : sub64 (reading { c with clock := fun n => c.clock (n + 1), incoming := [] } 0)
      c.lastMessageTimestamp > c.minMessageInterval :=
    sub64_gt_of_lt _ _ _ (reading_lt c 1) hgt
  rw [update_eq_drain c hconn, hmid,
    drainQueue_send { c with clock := fun n => c.clock (n + 1), incoming := [] } front rest
      hconn hq hgt2]
  rfl

/-- C8: take a connected client with an empty queue and nothing to receive. Three calls
of `sendRaw` with `shouldQueue`, for `A`, `B`, `C`, each reading a time within the
interval after `lastMessageTimestamp` (clock readings 0, 1, 2), return `false` and leave
the queue `[A, B, C]`. Three calls of `update` follow; each reads the clock three times
(its timestamp, the rate check, the stamp of the send), so the rate checks are readings
4, 7, 10 and the stamps readings 5, 8. When each rate check comes more than the interval
after the previous transmission, the first `update` transmits `A` and leaves `[B, C]`,
the second transmits `B` and leaves `[C]`, the third transmits `C` and leaves the queue
empty; none of them throws. -/
theorem queue_fifo (c : TwitchIRCClient) (A B C : Str)
    (hconn : c.connected = true) (hin : c.incoming = []) (hq : c.outgoingMessageQueue = [])
    (hA : c.lastMessageTimestamp ≤ reading c 0
      ∧ reading c 0 - c.lastMessageTimestamp ≤ c.minMessageInterval)
    (hB : c.lastMessageTimestamp ≤ reading c 1
      ∧ reading c 1 - c.lastMessageTimestamp ≤ c.minMessageInterval)
    (hC : c.lastMessageTimestamp ≤ reading c 2
      ∧ reading c 2 - c.lastMessageTimestamp ≤ c.minMessageInterval)
    (h1 : c.lastMessageTimestamp + c.minMessageInterval < reading c 4)
    (h2 : reading c 5 + c.minMessageInterval < reading c 7)
    (h3 : reading c 8 + c.minMessageInterval < reading c 10) :
    ((sendRaw c A false true).1 = Except.ok false
        ∧ (sendRaw (afterSend c A false true) B false true).1 = Except.ok false
        ∧ (sendRaw (afterSend (afterSend c A false true) B false true) C false true).1
            = Except.ok false)
      ∧ (afterThreeSends c A B C).outgoingMessageQueue = [A, B, C]
      ∧ (afterThreeSends c A B C).transmitted = c.transmitted
      ∧ ((update (afterThreeSends c A B C)).1 = Except.ok ()
        ∧ (afterUpdate (afterThreeSends c A B C)).transmitted = c.transmitted ++ [A ++ CRLF]
        ∧ (afterUpdate (afterThreeSends c A B C)).outgoingMessageQueue = [B, C])
      ∧ ((update (afterUpdate (afterThreeSends c A B C))).1 = Except.ok ()
        ∧ (afterUpdate (afterUpdate (afterThreeSends c A B C))).transmitted
            = c.transmitted ++ [A ++ CRLF, B ++ CRLF]
        ∧ (afterUpdate (afterUpdate (afterThreeSends c A B C))).outgoingMessageQueue = [C])
      ∧ ((update (afterUpdate (afterUpdate (afterThreeSends c A B C)))).1 = Except.ok ()
        ∧ (afterUpdate (afterUpdate (afterUpdate (afterThreeSends c A B C)))).transmitted
            = c.transmitted ++ [A ++ CRLF, B ++ CRLF, C ++ CRLF]
        ∧ (afterUpdate (afterUpdate (afterUpdate (afterThreeSends c A B C)))).outgoingMessageQueue
            = []) := by
  have e1 : sendRaw c A false true
      = (Except.ok false,
          { c with clock := fun n => c.clock (n + 1)
                   outgoingMessageQueue := [A] }) := by
    rw [sendRaw_queue_eq c A hconn hA.1 hA.2, hq]
    rfl
  have e2 : sendRaw { c with clock := fun n => c.clock (n + 1), outgoingMessageQueue := [A] }
        B false true
      = (Except.ok false,
          { c with clock := fun n => c.clock (n + 2)
                   outgoingMessageQueue := [A, B] }) :=
    sendRaw_queue_eq { c with clock := fun n => c.clock (n + 1), outgoingMessageQueue := [A] }
      B hconn hB.1 hB.2
  have e3 : sendRaw { c with clock := fun n => c.clock (n + 2), outgoingMessageQueue := [A, B] }
        C false true
      = (Except.ok false,
          { c with clock := fun n => c.clock (n + 3)
                   outgoingMessageQueue := [A, B, C] }) :=
    sendRaw_queue_eq { c with clock := fun n => c.clock (n + 2), outgoingMessageQueue := [A, B] }
      C hconn hC.1 hC.2
  have u1 : update { c with clock := fun n => c.clock (n + 3), outgoingMessageQueue := [A, B, C] }
      = (Except.ok (),
          { c with clock := fun n => c.clock (n + 6)
                   transmitted := c.transmitted ++ [A ++ CRLF]
                   lastMessageTimestamp := reading c 5
                   outgoingMessageQueue := [B, C]
                   incoming := [] }) :=
    update_idle_send
      { c with clock := fun n => c.clock (n + 3), outgoingMessageQueue := [A, B, C] }
      A [B, C] hconn hin rfl h1
  have u2 : update { c with clock := fun n => c.clock (n + 6)
                            transmitted := c.transmitted ++ [A ++ CRLF]
                            lastMessageTimestamp := reading c 5
                            outgoingMessageQueue := [B, C]
                            incoming := [] }
      = (Except.ok (),
          { c with clock := fun n => c.clock (n + 9)
                   transmitted := c.transmitted ++ [A ++ CRLF] ++ [B ++ CRLF]
                   lastMessageTimestamp := reading c 8
                   outgoingMessageQueue := [C]
                   incoming := [] }) :=
    update_idle_send
      { c with clock := fun n => c.clock (n + 6)
               transmitted := c.transmitted ++ [A ++ CRLF]
               lastMessageTimestamp := reading c 5
               outgoingMessageQueue := [B, C]
               incoming := [] }
      B [C] hconn rfl rfl h2
  have u3 : update { c with clock := fun n => c.clock (n + 9)
                            transmitted := c.transmitted ++ [A ++ CRLF] ++ [B ++ CRLF]
                            lastMessageTimestamp := reading c 8
                            outgoingMessageQueue := [C]
                            incoming := [] }
      = (Except.ok (),
          { c with clock := fun n => c.clock (n + 12)
                   transmitted := c.transmitted ++ [A ++ CRLF] ++ [B ++ CRLF] ++ [C ++ CRLF]
                   lastMessageTimestamp := reading c 11
                   outgoingMessageQueue := []
                   incoming := [] }) :=
    update_idle_send
      { c with clock := fun n => c.clock (n + 9)
               transmitted := c.transmitted ++ [A ++ CRLF] ++ [B ++ CRLF]
               lastMessageTimestamp := reading c 8
               outgoingMessageQueue := [C]
               incoming := [] }
      C [] hconn rfl rfl h3
  have s1 : afterSend c A false true
      = { c with clock := fun n => c.clock (n + 1), outgoingMessageQueue := [A] } := by
    unfold afterSend
    rw [e1]
  have s3 : afterThreeSends c A B C
      = { c with clock := fun n => c.clock (n + 3), outgoingMessageQueue := [A, B, C] } := by
    unfold afterThreeSends
    rw [s1]
    unfold afterSend
    rw [e2, e3]
  have s2 : afterSend (afterSend c A false true) B false true
      = { c with clock := fun n => c.clock (n + 2), outgoingMessageQueue := [A, B] } := by
    rw [s1]
    unfold afterSend
    rw [e2]
  have a1 : afterUpdate (afterThreeSends c A B C)
      = { c with clock := fun n => c.clock (n + 6)
                 transmitted := c.transmitted ++ [A ++ CRLF]
                 lastMessageTimestamp := reading c 5
                 outgoingMessageQueue := [B, C]
                 incoming := [] } := by
    rw [s3]
    unfold afterUpdate
    rw [u1]
  have a2 : afterUpdate (afterUpdate (afterThreeSends c A B C))
      = { c with clock := fun n => c.clock (n + 9)
                 transmitted := c.transmitted ++ [A ++ CRLF] ++ [B ++ CRLF]
                 lastMessageTimestamp := reading c 8
                 outgoingMessageQueue := [C]
                 incoming := [] } := by
    rw [a1]
    unfold afterUpdate
    rw [u2]
  have a3 : afterUpdate (afterUpdate (afterUpdate (afterThreeSends c A B C)))
      = { c with clock := fun n => c.clock (n + 12)
                 transmitted := c.transmitted ++ [A ++ CRLF] ++ [B ++ CRLF] ++ [C ++ CRLF]
                 lastMessageTimestamp := reading c 11
                 outgoingMessageQueue := []
                 incoming := [] } := by
    rw [a2]
    unfold afterUpdate
    rw [u3]
  refine ⟨⟨by rw [e1], by rw [s1, e2], by rw [s2, e3]⟩, by rw [s3], by rw [s3],
    ⟨by rw [s3, u1], by rw [a1], by rw [a1]⟩,
    ⟨by rw [a1, u2], ?_, by rw [a2]⟩,
    ⟨by rw [a2, u3], ?_, by rw [a3]⟩⟩
  · rw [a2]
    simp
  · rw [a3]
    simp

/-- C8 on `idleClient`: the three polls send `A`, `B`, `C` in this order and empty the
queue. -/
theorem queue_fifo_witness :
    (afterThreeSends idleClient "A".toList "B".toList "C".toList).outgoingMessageQueue
        = ["A".toList, "B".toList, "C".toList]
      ∧ (afterUpdate (afterUpdate (afterUpdate
          (afterThreeSends idleClient "A".toList "B".toList "C".toList)))).transmitted
        = ["A".toList ++ CRLF, "B".toList ++ CRLF, "C".toList ++ CRLF]
      ∧ (afterUpdate (afterUpdate (afterUpdate
          (afterThreeSends idleClient "A".toList "B".toList "C".toList)))).outgoingMessageQueue
        = [] :=
  ⟨(queue_fifo idleClient "A".toList "B".toList "C".toList rfl rfl rfl
      (by decide) (by decide) (by decide) (by decide) (by decide) (by decide)).2.1,
   (queue_fifo idleClient "A".toList "B".toList "C".toList rfl rfl rfl
      (by decide) (by decide) (by decide) (by decide) (by decide) (by decide)).2.2.2.2.2.2.1,
   (queue_fifo idleClient "A".toList "B".toList "C".toList rfl rfl rfl
      (by decide) (by decide) (by decide) (by decide) (by decide) (by decide)).2.2.2.2.2.2.2⟩

/-! ## The all-listener and the size guard -/

/-- C15, amended: in the dispatch of `update`, the handler registered under the empty name
is called only if no registered listener whose name and search string are both longer
than one `char` has its search string in the message text. -/
theorem catch_all_needs_no_eligible_match (ls : List (Str × TwitchMessageListener))
    (message : IRCMessage) (hcalled : ∃ call ∈ dispatch ls message, call.name = []) :
    ∀ name l, (name, l) ∈ ls → name.length > 1 → l.search.length > 1 →
      ¬ l.search <:+: message.message := by
  intro name l hmem hname hsearch hin
  have hf : fires message (name, l) = true :=
    (fires_iff message name l).mpr ⟨hsearch, hname, hin⟩
  have hcall : (⟨name, l.handler, message⟩ : HandlerCall) ∈ callsOf message ls := by
    unfold callsOf
    exact List.mem_map.mpr ⟨(name, l), List.mem_filter.mpr ⟨hmem, hf⟩, rfl⟩
  have hne : callsOf message ls ≠ [] := List.ne_nil_of_mem hcall
  have hd : dispatch ls message = callsOf message ls := by
    rw [dispatch_eq]
    cases mapFind [] ls with
    | none => simp
    | some l2 => simp [hne]
  obtain ⟨call, hc, hnil⟩ := hcalled
  rw [hd] at hc
  exact callsOf_name_ne_nil message ls call hc hnil

/-- C15, amended, on the registry with `kw` searching `foo` and the empty name: the
all-listener is called for the text `bar`, and `foo` is not part of `bar`. -/
theorem catch_all_needs_no_eligible_match_witness :
    (∃ call ∈ dispatch [([], ⟨"*".toList, 0⟩), ("kw".toList, ⟨"foo".toList, 1⟩)]
        ⟨7, "nick".toList, "bar".toList⟩, call.name = [])
      ∧ ¬ "foo".toList <:+: "bar".toList :=
  ⟨by decide,
   catch_all_needs_no_eligible_match
    [([], ⟨"*".toList, 0⟩), ("kw".toList, ⟨"foo".toList, 1⟩)]
    ⟨7, "nick".toList, "bar".toList⟩ (by decide)
    "kw".toList ⟨"foo".toList, 1⟩ (by decide) (by decide) (by decide)⟩

/-- C15 as stated fails: with the listener `k` (a name of one `char`) searching `foo` and
an all-listener registered, the text `foo` holds the search string of `k`, a listener
other than the all-listener, and the all-listener is called all the same. The same
happens for the listener `kw` with the search string `o` of one `char`. -/
theorem catch_all_not_suppressed_by_short_listener :
    ((∃ call ∈ dispatch [([], ⟨"*".toList, 0⟩), ("k".toList, ⟨"foo".toList, 1⟩)]
          ⟨0, "nick".toList, "foo".toList⟩, call.name = [] ∧ call.handler = 0)
      ∧ (∃ e ∈ [(([] : Str), (⟨"*".toList, 0⟩ : TwitchMessageListener)),
            ("k".toList, ⟨"foo".toList, 1⟩)],
          e.1 ≠ [] ∧ e.2.search <:+: "foo".toList))
      ∧ ((∃ call ∈ dispatch [([], ⟨"*".toList, 0⟩), ("kw".toList, ⟨"o".toList, 1⟩)]
          ⟨0, "nick".toList, "foo".toList⟩, call.name = [] ∧ call.handler = 0)
      ∧ (∃ e ∈ [(([] : Str), (⟨"*".toList, 0⟩ : TwitchMessageListener)),
            ("kw".toList, ⟨"o".toList, 1⟩)],
          e.1 ≠ [] ∧ e.2.search <:+: "foo".toList)) := by
  decide

/-! ## The handshake -/

/-- C16: for every hostname, port, username and credential, `connect` either throws
`Unable_To_Connect` with nothing transmitted and nothing queued (when `mTCP.setup`
answers `false`), or (when it answers `true`, the transport being connected then) returns
after transmitting `PASS ` + credential, `USER ` + username and `NICK ` + username, each
followed by `"\r\n"`, in this order and nothing else, whatever the clock, the last send
time and the minimum interval are, with the queue as it was. -/
theorem connect_handshake (c : TwitchIRCClient) (setupOk : Bool) (hostname : Str) (port : Int)
    (username oauth : Str) :
    (setupOk = false →
        (connect c setupOk hostname port username oauth).1
            = Except.error TwitchIRCClientError.Unable_To_Connect
          ∧ (connect c setupOk hostname port username oauth).2.transmitted = c.transmitted
          ∧ (connect c setupOk hostname port username oauth).2.outgoingMessageQueue
              = c.outgoingMessageQueue)
      ∧ (setupOk = true →
        (connect c setupOk hostname port username oauth).1 = Except.ok ()
          ∧ (connect c setupOk hostname port username oauth).2.transmitted
              = c.transmitted ++ [("PASS ".toList ++ oauth) ++ CRLF,
                  ("USER ".toList ++ username) ++ CRLF, ("NICK ".toList ++ username) ++ CRLF]
          ∧ (connect c setupOk hostname port username oauth).2.outgoingMessageQueue
              = c.outgoingMessageQueue) := by
  constructor
  · intro h
    subst h
    exact ⟨rfl, rfl, rfl⟩
  · intro h
    subst h
    simp [connect, sendRaw, transmitNow, ofGetElapsedTimeMillis]

/-- C16 on a client that sent a moment ago (time 5000, last send 4999, interval 2000) and
has an entry queued: the three lines go out, the queue stays. -/
theorem connect_handshake_witness :
    (connect (clientAt false (fun _ => 5000) 4999 2000 ["x".toList] [] []) true
        "irc.chat.twitch.tv".toList 6667 "bot".toList "oauth:abc".toList).2.transmitted
      = ["PASS oauth:abc".toList ++ CRLF, "USER bot".toList ++ CRLF, "NICK bot".toList ++ CRLF]
      ∧ (connect (clientAt true (fun _ => 5000) 4999 2000 ["x".toList] [] []) false
        "irc.chat.twitch.tv".toList 6667 "bot".toList "oauth:abc".toList).2.transmitted = [] :=
  ⟨((connect_handshake (clientAt false (fun _ => 5000) 4999 2000 ["x".toList] [] []) true
      "irc.chat.twitch.tv".toList 6667 "bot".toList "oauth:abc".toList).2 rfl).2.1,
   ((connect_handshake (clientAt true (fun _ => 5000) 4999 2000 ["x".toList] [] []) false
      "irc.chat.twitch.tv".toList 6667 "bot".toList "oauth:abc".toList).1 rfl).2.1⟩

/-! ## Clearing the registry -/

theorem sendRaw_keeps_calls (c : TwitchIRCClient) (msg : Str) (d q : Bool) :
    (sendRaw c msg d q).2.handlerCalls = c.handlerCalls
      ∧ (sendRaw c msg d q).2.messageListeners = c.messageListeners := by
  simp only [sendRaw, transmitNow, ofGetElapsedTimeMillis]
  split_ifs <;> exact ⟨rfl, rfl⟩

theorem mapFind_nil (key : Str) : mapFind key [] = none := rfl

theorem dispatch_nil (message : IRCMessage) : dispatch [] message = [] := rfl

theorem processLine_no_listeners (ts : Nat) (line : Str) (c : TwitchIRCClient)
    (h : c.messageListeners = []) :
    (processLine ts line c).2.handlerCalls = c.handlerCalls
      ∧ (processLine ts line c).2.messageListeners = [] := by
  unfold processLine
  by_cases hp : line.take 4 = "PING".toList
  · rw [if_pos hp]
    obtain ⟨h1, h2⟩ := sendRaw_keeps_calls c (line.set 1 'O') true false
    rcases hs : sendRaw c (line.set 1 'O') true false with ⟨r, c1⟩
    rw [hs] at h1 h2
    cases r with
    | ok b => exact ⟨h1, by rw [← h]; exact h2⟩
    | error e => exact ⟨h1, by rw [← h]; exact h2⟩
  · rw [if_neg hp]
    cases getIRCMessage line with
    | none => exact ⟨rfl, h⟩
    | some m =>
      simp [h, dispatch_nil]

theorem receiveLoop_no_listeners (ts : Nat) (lines : List Str) (c : TwitchIRCClient)
    (h : c.messageListeners = []) :
    (receiveLoop ts lines c).2.handlerCalls = c.handlerCalls
      ∧ (receiveLoop ts lines c).2.messageListeners = [] := by
  induction lines generalizing c with
  | nil => exact ⟨rfl, h⟩
  | cons msg rest ih =>
    unfold receiveLoop
    by_cases hlen : msg.length > 0
    · rw [if_pos hlen]
      obtain ⟨h1, h2⟩ := processLine_no_listeners ts msg { c with incoming := rest } h
      rcases hp : processLine ts msg { c with incoming := rest } with ⟨r, c1⟩
      rw [hp] at h1 h2
      cases r with
      | ok u =>
        obtain ⟨i1, i2⟩ := ih c1 h2
        exact ⟨by rw [i1]; exact h1, i2⟩
      | error e => exact ⟨h1, h2⟩
    · rw [if_neg hlen]
      exact ⟨rfl, h⟩

theorem drainQueue_keeps_calls (c : TwitchIRCClient) :
    (drainQueue c).2.handlerCalls = c.handlerCalls := by
  unfold drainQueue
  cases hq : c.outgoingMessageQueue with
  | nil => rfl
  | cons next rest =>
    have h1 := (sendRaw_keeps_calls c next false false).1
    rcases hs : sendRaw c next false false with ⟨r, c1⟩
    rw [hs] at h1
    simp only [hs]
    cases r with
    | ok b => cases b <;> exact h1
    | error e => exact h1

/-- C18: after `clearTwitchMessageHandlers()`, whatever was registered before, the
dispatch of a chat message calls no handler, the loop body of `update` calls no handler on
any line, and a whole call of `update` calls no handler, whatever it receives. -/
theorem clear_then_no_handler (c : TwitchIRCClient) (message : IRCMessage) (ts : Nat)
    (line : Str) :
    dispatch (clearTwitchMessageHandlers c).messageListeners message = []
      ∧ (processLine ts line (clearTwitchMessageHandlers c)).2.handlerCalls = c.handlerCalls
      ∧ (update (clearTwitchMessageHandlers c)).2.handlerCalls = c.handlerCalls := by
  have hnil : (clearTwitchMessageHandlers c).messageListeners = [] := rfl
  refine ⟨rfl, (processLine_no_listeners ts line _ hnil).1, ?_⟩
  unfold update
  by_cases hc : (clearTwitchMessageHandlers c).connected = true
  · rw [if_pos hc]
    have hstart : (updateStart (clearTwitchMessageHandlers c)).2.messageListeners = [] := rfl
    obtain ⟨h1, _⟩ := receiveLoop_no_listeners (updateStart (clearTwitchMessageHandlers c)).1
      (updateStart (clearTwitchMessageHandlers c)).2.incoming
      (updateStart (clearTwitchMessageHandlers c)).2 hstart
    show (match receiveLoop (updateStart (clearTwitchMessageHandlers c)).1
            (updateStart (clearTwitchMessageHandlers c)).2.incoming
            (updateStart (clearTwitchMessageHandlers c)).2 with
          | (Except.ok _, c2) => drainQueue c2
          | (Except.error e, c2) => (Except.error e, c2)).2.handlerCalls = c.handlerCalls
    rcases hr : receiveLoop (updateStart (clearTwitchMessageHandlers c)).1
      (updateStart (clearTwitchMessageHandlers c)).2.incoming
      (updateStart (clearTwitchMessageHandlers c)).2 with ⟨r, c2⟩
    rw [hr] at h1
    cases r with
    | ok u =>
      show (drainQueue c2).2.handlerCalls = c.handlerCalls
      rw [drainQueue_keeps_calls]
      exact h1
    | error e => exact h1
  · rw [if_neg hc]
    rfl

/-! ## Registration -/

theorem char_eq_of_toNat_eq (a b : Char) (h : a.toNat = b.toNat) : a = b := by
  have := congrArg Char.ofNat h
  simpa using this

theorem strLt_asymm (a b : Str) (h1 : strLt a b = true) (h2 : strLt b a = true) : False := by
  induction a generalizing b with
  | nil =>
    cases b with
    | nil => simp [strLt] at h1
    | cons y ys => simp [strLt] at h2
  | cons x xs ih =>
    cases b with
    | nil => simp [strLt] at h1
    | cons y ys =>
      simp only [strLt] at h1 h2
      by_cases hxy : x.toNat < y.toNat
      · have hyx : ¬ y.toNat < x.toNat := by omega
        simp [hxy, hyx] at h2
      · by_cases hyx : y.toNat < x.toNat
        · simp [hxy, hyx] at h1
        · simp only [hxy, hyx, if_false] at h1 h2
          exact ih ys h1 h2

theorem strLt_trans (a b c : Str) (h1 : strLt a b = true) (h2 : strLt b c = true) :
    strLt a c = true := by
  induction a generalizing b c with
  | nil =>
    cases b with
    | nil => simp [strLt] at h1
    | cons y ys =>
      cases c with
      | nil => simp [strLt] at h2
      | cons z zs => simp [strLt]
  | cons x xs ih =>
    cases b with
    | nil => simp [strLt] at h1
    | cons y ys =>
      cases c with
      | nil => simp [strLt] at h2
      | cons z zs =>
        simp only [strLt] at h1 h2 ⊢
        by_cases hxy : x.toNat < y.toNat
        · by_cases hyz : y.toNat < z.toNat
          · have : x.toNat < z.toNat := by omega
            simp [this]
          · by_cases hzy : z.toNat < y.toNat
            · simp [hyz, hzy] at h2
            · have : x.toNat < z.toNat := by omega
              simp [this]
        · by_cases hyx : y.toNat < x.toNat
          · simp [hxy, hyx] at h1
          · simp only [hxy, hyx, if_false] at h1
            by_cases hyz : y.toNat < z.toNat
            · have : x.toNat < z.toNat := by omega
              simp [this]
            · by_cases hzy : z.toNat < y.toNat
              · simp [hyz, hzy] at h2
              · simp only [hyz, hzy, if_false] at h2
                have e1 : ¬ x.toNat < z.toNat := by omega
                have e2 : ¬ z.toNat < x.toNat := by omega
                simp only [e1, e2, if_false]
                exact ih ys zs h1 h2

theorem strLt_total (a b : Str) (hne : a ≠ b) (h : ¬ strLt a b = true) : strLt b a = true := by
  induction a generalizing b with
  | nil =>
    cases b with
    | nil => exact absurd rfl hne
    | cons y ys => simp [strLt] at h
  | cons x xs ih =>
    cases b with
    | nil => simp [strLt]
    | cons y ys =>
      simp only [strLt] at h ⊢
      by_cases hxy : x.toNat < y.toNat
      · simp [hxy] at h
      · by_cases hyx : y.toNat < x.toNat
        · simp [hyx]
        · simp only [hxy, hyx, if_false] at h ⊢
          have hx : x = y := char_eq_of_toNat_eq x y (by omega)
          subst hx
          exact ih ys (fun e => hne (by rw [e])) h

theorem mapFind_mapAssign_self (key : Str) (v : TwitchMessageListener)
    (ls : List (Str × TwitchMessageListener)) : mapFind key (mapAssign key v ls) = some v := by
  induction ls with
  | nil => simp [mapAssign, mapFind]
  | cons e rest ih =>
    obtain ⟨k, w⟩ := e
    unfold mapAssign
    by_cases h1 : key = k
    · simp [h1, mapFind]
    · by_cases h2 : strLt key k = true
      · simp [h1, h2, mapFind]
      · have h3 : ¬ k = key := fun e => h1 e.symm
        simp [h1, h2, mapFind, h3, ih]

theorem mem_mapAssign_of_ne (key : Str) (v : TwitchMessageListener)
    (ls : List (Str × TwitchMessageListener)) (e : Str × TwitchMessageListener)
    (hne : e.1 ≠ key) : e ∈ mapAssign key v ls ↔ e ∈ ls := by
  have hne2 : ¬ e = (key, v) := fun h => hne (by rw [h])
  induction ls with
  | nil => simp [mapAssign, hne2]
  | cons x rest ih =>
    obtain ⟨k, w⟩ := x
    unfold mapAssign
    by_cases h1 : key = k
    · have hne3 : ¬ e = (k, w) := fun h => hne (by rw [h, h1])
      simp [h1, hne3]
      intro h
      exact absurd h (by rw [← h1]; exact hne2)
    · by_cases h2 : strLt key k = true
      · simp [h1, h2, hne2]
      · simp [h1, h2, ih]

theorem keys_mapAssign_subset (key : Str) (v : TwitchMessageListener)
    (ls : List (Str × TwitchMessageListener)) (k : Str)
    (h : k ∈ (mapAssign key v ls).map Prod.fst) : k = key ∨ k ∈ ls.map Prod.fst := by
  rw [List.mem_map] at h
  obtain ⟨e, he, hk⟩ := h
  by_cases hek : e.1 = key
  · exact Or.inl (by rw [← hk, hek])
  · exact Or.inr (List.mem_map.mpr ⟨e, (mem_mapAssign_of_ne key v ls e hek).mp he, hk⟩)

theorem sortedKeys_mapAssign (key : Str) (v : TwitchMessageListener)
    (ls : List (Str × TwitchMessageListener)) (hs : SortedKeys ls) :
    SortedKeys (mapAssign key v ls) := by
  induction ls with
  | nil => simp [mapAssign, SortedKeys]
  | cons x rest ih =>
    obtain ⟨k, w⟩ := x
    have hs2 : (∀ k2 ∈ rest.map Prod.fst, strLt k k2 = true) ∧ SortedKeys rest := by
      unfold SortedKeys at hs ⊢
      rw [List.map_cons] at hs
      exact List.pairwise_cons.mp hs
    unfold mapAssign
    by_cases h1 : key = k
    · rw [if_pos h1]
      unfold SortedKeys
      rw [List.map_cons]
      refine List.pairwise_cons.mpr ⟨?_, hs2.2⟩
      intro k2 hk2
      rw [h1]
      exact hs2.1 k2 hk2
    · rw [if_neg h1]
      by_cases h2 : strLt key k = true
      · rw [if_pos h2]
        unfold SortedKeys
        rw [List.map_cons]
        refine List.pairwise_cons.mpr ⟨?_, hs⟩
        intro k2 hk2
        rw [List.map_cons] at hk2
        rcases List.mem_cons.mp hk2 with h | h
        · rw [h]; exact h2
        · exact strLt_trans key k k2 h2 (hs2.1 k2 h)
      · rw [if_neg h2]
        unfold SortedKeys
        rw [List.map_cons]
        refine List.pairwise_cons.mpr ⟨?_, ih hs2.2⟩
        intro k2 hk2
        rcases keys_mapAssign_subset key v rest k2 hk2 with h | h
        · rw [h]
          exact strLt_total key k h1 h2
        · exact hs2.1 k2 h

theorem uniqueKeys_of_sortedKeys (ls : List (Str × TwitchMessageListener))
    (hs : SortedKeys ls) : UniqueKeys ls := by
  unfold UniqueKeys SortedKeys at *
  refine List.Pairwise.imp ?_ hs
  intro a b hab heq
  rw [heq] at hab
  exact strLt_asymm b b hab hab

theorem length_mapAssign (key : Str) (v : TwitchMessageListener)
    (ls : List (Str × TwitchMessageListener)) (hs : SortedKeys ls) :
    (key ∈ ls.map Prod.fst → (mapAssign key v ls).length = ls.length)
      ∧ (key ∉ ls.map Prod.fst → (mapAssign key v ls).length = ls.length + 1) := by
  induction ls with
  | nil => simp [mapAssign]
  | cons x rest ih =>
    obtain ⟨k, w⟩ := x
    have hs2 : (∀ k2 ∈ rest.map Prod.fst, strLt k k2 = true) ∧ SortedKeys rest := by
      unfold SortedKeys at hs ⊢
      rw [List.map_cons] at hs
      exact List.pairwise_cons.mp hs
    obtain ⟨ih1, ih2⟩ := ih hs2.2
    unfold mapAssign
    by_cases h1 : key = k
    · rw [if_pos h1]
      constructor
      · intro _
        rfl
      · intro h
        exact absurd (by rw [List.map_cons]; exact List.mem_cons.mpr (Or.inl h1)) h
    · rw [if_neg h1]
      by_cases h2 : strLt key k = true
      · have hnot : key ∉ rest.map Prod.fst := by
          intro hk
          exact strLt_asymm key k h2 (hs2.1 key hk)
        rw [if_pos h2]
        constructor
        · intro h
          rw [List.map_cons] at h
          rcases List.mem_cons.mp h with h | h
          · exact absurd h h1
          · exact absurd h hnot
        · intro _
          rfl
      · rw [if_neg h2]
        constructor
        · intro h
          rw [List.map_cons] at h
          rcases List.mem_cons.mp h with h | h
          · exact absurd h h1
          · show (mapAssign key v rest).length + 1 = rest.length + 1
            rw [ih1 h]
        · intro h
          show (mapAssign key v rest).length + 1 = rest.length + 1 + 1
          rw [ih2 (fun hk => h (by rw [List.map_cons]; exact List.mem_cons_of_mem _ hk))]

theorem mem_of_mapFind (key : Str) (v : TwitchMessageListener)
    (ls : List (Str × TwitchMessageListener)) (h : mapFind key ls = some v) : (key, v) ∈ ls := by
  induction ls with
  | nil => simp [mapFind] at h
  | cons x rest ih =>
    obtain ⟨k, w⟩ := x
    unfold mapFind at h
    by_cases hk : k = key
    · rw [if_pos hk] at h
      cases h
      rw [hk]
      exact List.mem_cons_self _ _
    · rw [if_neg hk] at h
      exact List.mem_cons_of_mem _ (ih h)

theorem listener_unique (ls : List (Str × TwitchMessageListener)) (hu : UniqueKeys ls)
    (k : Str) (l1 l2 : TwitchMessageListener) (h1 : (k, l1) ∈ ls) (h2 : (k, l2) ∈ ls) :
    l1 = l2 := by
  induction ls with
  | nil => cases h1
  | cons x rest ih =>
    have hu2 : x.1 ∉ rest.map Prod.fst ∧ UniqueKeys rest := by
      unfold UniqueKeys at hu ⊢
      rw [List.map_cons] at hu
      exact List.nodup_cons.mp hu
    rcases List.mem_cons.mp h1 with a | a
    · rcases List.mem_cons.mp h2 with b | b
      · rw [← b] at a
        exact (Prod.mk.inj a).2
      · have hk : k ∈ rest.map Prod.fst := List.mem_map.mpr ⟨(k, l2), b, rfl⟩
        have hx : x.1 = k := by rw [← a]
        exact absurd (by rw [hx]; exact hk) hu2.1
    · rcases List.mem_cons.mp h2 with b | b
      · have hk : k ∈ rest.map Prod.fst := List.mem_map.mpr ⟨(k, l1), a, rfl⟩
        have hx : x.1 = k := by rw [← b]
        exact absurd (by rw [hx]; exact hk) hu2.1
      · exact ih hu2.2 a b

/-- C17: on a registry in key order (a `std::map`), after
`addTwitchMessageHandler(name, search, handler)` the lookup of `name` gives
`(search, handler)` and no other entry has this name, an entry under another name is in
the registry exactly when it was before, the number of entries is unchanged when `name`
was registered and one more otherwise, the registry is in key order again, and in a later
dispatch every call made through `name` calls `handler`, and for a non-empty `name` it is
made only when `search` is in the text. -/
theorem addTwitchMessageHandler_upsert (c : TwitchIRCClient) (name search : Str)
    (handler : Nat) (hs : SortedKeys c.messageListeners) :
    mapFind name (addTwitchMessageHandler c name search handler).messageListeners
        = some ⟨search, handler⟩
      ∧ (∀ l, (name, l) ∈ (addTwitchMessageHandler c name search handler).messageListeners →
          l = ⟨search, handler⟩)
      ∧ (∀ e : Str × TwitchMessageListener, e.1 ≠ name →
          (e ∈ (addTwitchMessageHandler c name search handler).messageListeners
            ↔ e ∈ c.messageListeners))
      ∧ (name ∈ c.messageListeners.map Prod.fst →
          (addTwitchMessageHandler c name search handler).messageListeners.length
            = c.messageListeners.length)
      ∧ (name ∉ c.messageListeners.map Prod.fst →
          (addTwitchMessageHandler c name search handler).messageListeners.length
            = c.messageListeners.length + 1)
      ∧ SortedKeys (addTwitchMessageHandler c name search handler).messageListeners
      ∧ (∀ message, ∀ call ∈ dispatch
            (addTwitchMessageHandler c name search handler).messageListeners message,
          call.name = name →
            call.handler = handler ∧ (name ≠ [] → search <:+: message.message)) := by
  have hlist : (addTwitchMessageHandler c name search handler).messageListeners
      = mapAssign name ⟨search, handler⟩ c.messageListeners := rfl
  rw [hlist]
  have hfind := mapFind_mapAssign_self name ⟨search, handler⟩ c.messageListeners
  have hsorted := sortedKeys_mapAssign name ⟨search, handler⟩ c.messageListeners hs
  have huniq := uniqueKeys_of_sortedKeys _ hsorted
  have hmem := mem_of_mapFind name ⟨search, handler⟩ _ hfind
  have hone : ∀ l, (name, l) ∈ mapAssign name ⟨search, handler⟩ c.messageListeners →
      l = ⟨search, handler⟩ :=
    fun l hl => listener_unique _ huniq name l ⟨search, handler⟩ hl hmem
  have hlen := length_mapAssign name ⟨search, handler⟩ c.messageListeners hs
  refine ⟨hfind, hone, fun e he => mem_mapAssign_of_ne name _ _ e he, hlen.1, hlen.2,
    hsorted, ?_⟩
  intro message call hcall hname
  rw [dispatch_eq] at hcall
  rcases List.mem_append.mp hcall with h | h
  · obtain ⟨l, hl, hf, hc⟩ := callsOf_name message _ call h
    rw [hname] at hl hf
    have hl2 := hone l hl
    subst hl2
    refine ⟨by rw [hc], fun _ => ((fires_iff message name _).mp hf).2.2⟩
  · cases hnil : mapFind [] (mapAssign name ⟨search, handler⟩ c.messageListeners) with
    | none => simp [hnil] at h
    | some l =>
      rw [hnil] at h
      by_cases hc : callsOf message (mapAssign name ⟨search, handler⟩ c.messageListeners) = []
      · simp only [hc, if_true, List.mem_singleton] at h
        have hn : name = [] := by rw [← hname, h]
        have hmem2 : (name, l) ∈ mapAssign name ⟨search, handler⟩ c.messageListeners := by
          have := mem_of_mapFind [] l _ hnil
          rw [← hn] at this
          exact this
        have hl := hone l hmem2
        subst hl
        exact ⟨by rw [h], fun hne => absurd hn hne⟩
      · simp [hc] at h

/-- C17 on a registry that holds `kw` searching `foo`: registering `kw` again with `bar`
replaces the entry. -/
theorem addTwitchMessageHandler_upsert_witness :
    mapFind "kw".toList
        (addTwitchMessageHandler
          (clientAt true (fun _ => 0) 0 2000 [] [("kw".toList, ⟨"foo".toList, 1⟩)] [])
          "kw".toList "bar".toList 2).messageListeners = some ⟨"bar".toList, 2⟩
      ∧ (addTwitchMessageHandler
          (clientAt true (fun _ => 0) 0 2000 [] [("kw".toList, ⟨"foo".toList, 1⟩)] [])
          "kw".toList "bar".toList 2).messageListeners.length = 1 :=
  ⟨(addTwitchMessageHandler_upsert
      (clientAt true (fun _ => 0) 0 2000 [] [("kw".toList, ⟨"foo".toList, 1⟩)] [])
      "kw".toList "bar".toList 2 (by decide)).1,
   (addTwitchMessageHandler_upsert
      (clientAt true (fun _ => 0) 0 2000 [] [("kw".toList, ⟨"foo".toList, 1⟩)] [])
      "kw".toList "bar".toList 2 (by decide)).2.2.2.1 (by decide)⟩

/-! ## Keepalive and the rate budget -/

theorem pingCount_nil : pingCount [] = 0 := rfl

theorem skipSpaces_nil : skipSpaces [] = [] := rfl

theorem skipWord_nil : skipWord [] = [] := rfl

theorem skipSpaces_cons_space (cs : Str) : skipSpaces (' ' :: cs) = skipSpaces cs := by
  simp [skipSpaces, List.dropWhile_cons]

theorem skipSpaces_cons_other (c : Char) (cs : Str) (h : c ≠ ' ') :
    skipSpaces (c :: cs) = c :: cs := by
  simp [skipSpaces, List.dropWhile_cons, h]

theorem skipWord_cons_space (cs : Str) : skipWord (' ' :: cs) = ' ' :: cs := by
  simp [skipWord, List.dropWhile_cons]

theorem skipWord_cons_other (c : Char) (cs : Str) (h : c ≠ ' ') :
    skipWord (c :: cs) = skipWord cs := by
  simp [skipWord, List.dropWhile_cons, h]

theorem fromToken_nil (k : Nat) : fromToken k [] = [] := by
  induction k with
  | zero => rfl
  | succ k ih => exact ih

theorem skipSpaces_suffix (s : Str) : skipSpaces s <:+ s := List.dropWhile_suffix _

theorem skipWord_suffix (s : Str) : skipWord s <:+ s := List.dropWhile_suffix _

theorem fromToken_suffix (k : Nat) (s : Str) : fromToken k s <:+ s := by
  induction k generalizing s with
  | zero => exact skipSpaces_suffix s
  | succ k ih =>
    exact (ih (skipWord (skipSpaces s))).trans ((skipWord_suffix _).trans (skipSpaces_suffix s))

theorem drop_of_suffix (t s : Str) (h : t <:+ s) : s.drop (s.length - t.length) = t := by
  obtain ⟨pre, rfl⟩ := h
  have : (pre ++ t).length - t.length = pre.length := by simp
  rw [this, List.drop_left]

/-- Inside a token the tokeniser finds what it finds after the token. -/
theorem strtokStarts_true_skipWord (x : Str) (p : Nat) :
    strtokStarts x p true
      = strtokStarts (skipWord x) (p + (x.length - (skipWord x).length)) false := by
  induction x generalizing p with
  | nil => rfl
  | cons c cs ih =>
    by_cases hc : c = ' '
    · subst hc
      rw [skipWord_cons_space]
      simp [strtokStarts]
    · have hle := (skipWord_suffix cs).length_le
      rw [skipWord_cons_other c cs hc]
      have step : strtokStarts (c :: cs) p true = strtokStarts cs (p + 1) true := by
        simp [strtokStarts, hc]
      rw [step, ih (p + 1), List.length_cons]
      congr 1
      omega

/-- The tokeniser in front of a token: spaces are skipped, the token starts there, and
the search goes on after the token. -/
theorem strtokStarts_unfold (s : Str) (pos : Nat) :
    strtokStarts s pos false
      = if skipSpaces s = [] then []
        else (pos + (s.length - (skipSpaces s).length))
          :: strtokStarts (skipWord (skipSpaces s))
              (pos + (s.length - (skipWord (skipSpaces s)).length)) false := by
  induction s generalizing pos with
  | nil => rfl
  | cons c cs ih =>
    by_cases hc : c = ' '
    · subst hc
      have hle := (skipSpaces_suffix cs).length_le
      have hle2 := (skipWord_suffix (skipSpaces cs)).length_le
      rw [skipSpaces_cons_space, strtokStarts_space, ih (pos + 1), List.length_cons]
      by_cases he : skipSpaces cs = []
      · rw [if_pos he, if_pos he]
      · have e1 : pos + 1 + (cs.length - (skipSpaces cs).length)
            = pos + (cs.length + 1 - (skipSpaces cs).length) := by omega
        have e2 : pos + 1 + (cs.length - (skipWord (skipSpaces cs)).length)
            = pos + (cs.length + 1 - (skipWord (skipSpaces cs)).length) := by omega
        rw [if_neg he, if_neg he, e1, e2]
    · have hle := (skipWord_suffix cs).length_le
      rw [skipSpaces_cons_other c cs hc, if_neg (List.cons_ne_nil c cs),
        skipWord_cons_other c cs hc]
      have step : strtokStarts (c :: cs) pos false = pos :: strtokStarts cs (pos + 1) true := by
        simp [strtokStarts, hc]
      have e1 : pos + ((c :: cs).length - (c :: cs).length) = pos := by omega
      have e2 : pos + 1 + (cs.length - (skipWord cs).length)
          = pos + ((c :: cs).length - (skipWord cs).length) := by
        rw [List.length_cons]
        omega
      rw [step, strtokStarts_true_skipWord cs (pos + 1), e1, e2]

/-- The pointer to token number `k` that the tokeniser finds: the offset at which
`fromToken k` starts. -/
theorem strtokStarts_getElem (k : Nat) (s : Str) (pos : Nat) :
    (strtokStarts s pos false)[k]?
      = if fromToken k s = [] then none
        else some (pos + (s.length - (fromToken k s).length)) := by
  induction k generalizing s pos with
  | zero =>
    rw [strtokStarts_unfold]
    by_cases he : skipSpaces s = []
    · have hf : fromToken 0 s = [] := he
      rw [if_pos he, if_pos hf]
      rfl
    · have hf : ¬ fromToken 0 s = [] := he
      rw [if_neg he, if_neg hf, List.getElem?_cons_zero]
      rfl
  | succ k ih =>
    rw [strtokStarts_unfold]
    by_cases he : skipSpaces s = []
    · have hf : fromToken (k + 1) s = [] := by
        show fromToken k (skipWord (skipSpaces s)) = []
        rw [he, skipWord_nil, fromToken_nil]
      rw [if_pos he, if_pos hf]
      rfl
    · rw [if_neg he, List.getElem?_cons_succ, ih]
      have hf : fromToken (k + 1) s = fromToken k (skipWord (skipSpaces s)) := rfl
      rw [hf]
      by_cases hz : fromToken k (skipWord (skipSpaces s)) = []
      · rw [if_pos hz, if_pos hz]
      · rw [if_neg hz, if_neg hz]
        have h1 := (fromToken_suffix k (skipWord (skipSpaces s))).length_le
        have h2 := (skipWord_suffix (skipSpaces s)).length_le
        have h3 := (skipSpaces_suffix s).length_le
        congr 1
        omega

theorem cstr_no_nul (s : Str) : ∀ a ∈ cstr s, a ≠ NUL := by
  intro a ha
  have := List.mem_takeWhile_imp ha
  simpa using this

theorem cstr_append_rest (s : Str) : s = cstr s ++ s.dropWhile (fun c => c != NUL) :=
  (List.takeWhile_append_dropWhile _ s).symm

theorem takeWhile_dropWhile_nil (p : Char → Bool) (s : Str) :
    (s.dropWhile p).takeWhile p = [] := by
  induction s with
  | nil => rfl
  | cons c cs ih =>
    by_cases h : p c = true
    · simp [List.dropWhile_cons, h, ih]
    · simp [List.dropWhile_cons, List.takeWhile_cons, h]

theorem cstr_append_dropWhile (x s : Str) (hx : ∀ a ∈ x, a ≠ NUL) :
    cstr (x ++ s.dropWhile (fun c => c != NUL)) = x := by
  have hx2 : ∀ a ∈ x, (fun c => c != NUL) a = true := fun a ha => by simpa using hx a ha
  unfold cstr
  rw [takeWhile_append_all x _ hx2, takeWhile_dropWhile_nil, List.append_nil]

/-- The text `getIRCMessage` reads one past the pointer to the fourth token, in terms of
the buffer. -/
theorem message_eq (s : Str) (h : fromToken 3 (cstr s) ≠ []) :
    cstr (s.drop (0 + ((cstr s).length - (fromToken 3 (cstr s)).length) + 1))
      = (fromToken 3 (cstr s)).drop 1 := by
  obtain ⟨pre, hpre⟩ := fromToken_suffix 3 (cstr s)
  have hnn : ∀ a ∈ (fromToken 3 (cstr s)).drop 1, a ≠ NUL := by
    intro a ha
    apply cstr_no_nul s a
    rw [← hpre]
    exact List.mem_append_right _ (List.mem_of_mem_drop ha)
  have hlen : 0 + ((cstr s).length - (fromToken 3 (cstr s)).length) + 1 = pre.length + 1 := by
    have := congrArg List.length hpre
    rw [List.length_append] at this
    omega
  have hs : s = pre ++ (fromToken 3 (cstr s) ++ s.dropWhile (fun c => c != NUL)) := by
    rw [← List.append_assoc, hpre]
    exact cstr_append_rest s
  have hdrop : s.drop (pre.length + 1)
      = (fromToken 3 (cstr s)).drop 1 ++ s.dropWhile (fun c => c != NUL) := by
    conv_lhs => rw [hs]
    rw [drop_add_drop, List.drop_left]
    cases hF : fromToken 3 (cstr s) with
    | nil => exact absurd hF h
    | cons c cs => rfl
  rw [hlen, hdrop, cstr_append_dropWhile _ s hnn]

/-- The parser in terms of the tokens of the buffer: a line is accepted exactly when the
buffer has a fourth token and its second token is `PRIVMSG`; the username comes from the
first token and the text is what follows the first `char` of the fourth token. -/
theorem getIRCMessage_eq (s : Str) :
    getIRCMessage s
      = if fromToken 3 (cstr s) = [] then none
        else if token 1 (cstr s) = "PRIVMSG".toList then
          some ⟨0, (strtokBang (token 0 (cstr s))).drop 1, (fromToken 3 (cstr s)).drop 1⟩
        else none := by
  have g0 := strtokStarts_getElem 0 (cstr s) 0
  have g1 := strtokStarts_getElem 1 (cstr s) 0
  have g3 := strtokStarts_getElem 3 (cstr s) 0
  unfold getIRCMessage
  by_cases h3 : fromToken 3 (cstr s) = []
  · rw [if_pos h3] at g3
    rw [if_pos h3]
    rcases hL : strtokStarts (cstr s) 0 false with _ | ⟨a, _ | ⟨b, _ | ⟨c, _ | ⟨d, rest⟩⟩⟩⟩
    · simp only [hL]
    · simp only [hL]
    · simp only [hL]
    · simp only [hL]
    · rw [hL] at g3
      simp at g3
  · rw [if_neg h3] at g3
    rw [if_neg h3]
    rcases hL : strtokStarts (cstr s) 0 false with _ | ⟨a, _ | ⟨b, _ | ⟨c, _ | ⟨d, rest⟩⟩⟩⟩
    · rw [hL] at g3; simp at g3
    · rw [hL] at g3; simp at g3
    · rw [hL] at g3; simp at g3
    · rw [hL] at g3; simp at g3
    · rw [hL] at g0 g1 g3
      have h0 : fromToken 0 (cstr s) ≠ [] := by
        intro hz
        rw [if_pos hz] at g0
        simp at g0
      have h1 : fromToken 1 (cstr s) ≠ [] := by
        intro hz
        rw [if_pos hz] at g1
        simp at g1
      rw [if_neg h0] at g0
      rw [if_neg h1] at g1
      have ea : a = 0 + ((cstr s).length - (fromToken 0 (cstr s)).length) := by
        simpa using g0
      have eb : b = 0 + ((cstr s).length - (fromToken 1 (cstr s)).length) := by
        simpa using g1
      have ed : d = 0 + ((cstr s).length - (fromToken 3 (cstr s)).length) := by
        simpa using g3
      have t0 : tokenAt (cstr s) a = token 0 (cstr s) := by
        unfold tokenAt token
        rw [ea, Nat.zero_add, drop_of_suffix _ _ (fromToken_suffix 0 (cstr s))]
      have t1 : tokenAt (cstr s) b = token 1 (cstr s) := by
        unfold tokenAt token
        rw [eb, Nat.zero_add, drop_of_suffix _ _ (fromToken_suffix 1 (cstr s))]
      have tm : cstr (s.drop (d + 1)) = (fromToken 3 (cstr s)).drop 1 := by
        rw [ed]
        exact message_eq s h3
      simp only [hL, t0, t1, tm]

theorem fromToken_succ (k : Nat) (s : Str) :
    fromToken (k + 1) s = skipSpaces (skipWord (fromToken k s)) := by
  induction k generalizing s with
  | zero => rfl
  | succ k ih =>
    show fromToken (k + 1) (skipWord (skipSpaces s)) = _
    rw [ih]
    rfl

theorem fromToken_ne_nil_of_succ (k : Nat) (s : Str) (h : fromToken (k + 1) s ≠ []) :
    fromToken k s ≠ [] := by
  intro hz
  rw [fromToken_succ, hz] at h
  exact h rfl

theorem dropWhile_append_of_ne_nil (p : Char → Bool) (x r : Str) (h : x.dropWhile p ≠ []) :
    (x ++ r).dropWhile p = x.dropWhile p ++ r := by
  rw [List.dropWhile_append]
  have : ¬ (x.dropWhile p).isEmpty = true := by
    intro he
    exact h (List.isEmpty_iff.mp he)
  rw [if_neg this]

theorem takeWhile_append_of_dropWhile_ne_nil (p : Char → Bool) (x r : Str)
    (h : x.dropWhile p ≠ []) : (x ++ r).takeWhile p = x.takeWhile p := by
  rw [List.takeWhile_append]
  have hlen := congrArg List.length (List.takeWhile_append_dropWhile p x)
  rw [List.length_append] at hlen
  have hpos : 0 < (x.dropWhile p).length := List.length_pos.mpr h
  have : ¬ (x.takeWhile p).length = x.length := by omega
  rw [if_neg this]

/-- What follows a line does not change the part that starts at token `k`, when the line
has a token `k`. -/
theorem fromToken_append (k : Nat) (x r : Str) (h : fromToken k x ≠ []) :
    fromToken k (x ++ r) = fromToken k x ++ r := by
  induction k generalizing x with
  | zero => exact dropWhile_append_of_ne_nil _ x r h
  | succ k ih =>
    have h2 : fromToken k (skipWord (skipSpaces x)) ≠ [] := h
    have hw : skipWord (skipSpaces x) ≠ [] := by
      intro hz
      rw [hz, fromToken_nil] at h2
      exact h2 rfl
    have hsp : skipSpaces x ≠ [] := by
      intro hz
      rw [hz] at hw
      exact hw rfl
    show fromToken k (skipWord (skipSpaces (x ++ r))) = fromToken k (skipWord (skipSpaces x)) ++ r
    have e1 : skipSpaces (x ++ r) = skipSpaces x ++ r := dropWhile_append_of_ne_nil _ x r hsp
    have e2 : skipWord (skipSpaces x ++ r) = skipWord (skipSpaces x) ++ r :=
      dropWhile_append_of_ne_nil _ (skipSpaces x) r hw
    rw [e1, e2, ih _ h2]

/-- What follows a line does not change its token `k`, when the line has a token
`k + 1`. -/
theorem token_append (k : Nat) (x r : Str) (h : fromToken (k + 1) x ≠ []) :
    token k (x ++ r) = token k x := by
  have hk := fromToken_ne_nil_of_succ k x h
  have hw : skipWord (fromToken k x) ≠ [] := by
    intro hz
    rw [fromToken_succ, hz] at h
    exact h rfl
  unfold token
  rw [fromToken_append k x r hk]
  exact takeWhile_append_of_dropWhile_ne_nil _ _ r hw

theorem strictTokens_nil : strictTokens [] = [[]] := rfl

theorem strictTokens_cons_space (cs : Str) : strictTokens (' ' :: cs) = [] :: strictTokens cs := by
  simp [strictTokens, List.splitOn]

theorem strictTokens_cons_other (c : Char) (cs : Str) (h : c ≠ ' ') :
    strictTokens (c :: cs) = (strictTokens cs).modifyHead (List.cons c) := by
  simp [strictTokens, List.splitOn, h]

theorem strictTokens_ne_nil (s : Str) : strictTokens s ≠ [] := List.splitOnP_ne_nil _ s

/-- The strict split at the first space. -/
theorem strictTokens_unfold (s : Str) :
    strictTokens s
      = s.takeWhile (fun c => c != ' ')
          :: (match s.dropWhile (fun c => c != ' ') with
              | [] => []
              | _ :: r => strictTokens r) := by
  induction s with
  | nil => rfl
  | cons c cs ih =>
    by_cases hc : c = ' '
    · subst hc
      rw [strictTokens_cons_space]
      simp [List.takeWhile_cons, List.dropWhile_cons]
    · rw [strictTokens_cons_other c cs hc, ih]
      simp [List.takeWhile_cons, List.dropWhile_cons, hc, List.modifyHead]

theorem words_cons_space (cs : Str) : words (' ' :: cs) = words cs := by
  unfold words
  rw [strictTokens_cons_space]
  simp [List.filter_cons]

/-- The words of a line: its first token, then the words of what follows it. -/
theorem words_unfold (s : Str) :
    words s = if skipSpaces s = [] then []
      else token 0 s :: words (skipWord (skipSpaces s)) := by
  induction s with
  | nil => rfl
  | cons c cs ih =>
    by_cases hc : c = ' '
    · subst hc
      have ht : token 0 (' ' :: cs) = token 0 cs := by
        unfold token
        show (skipSpaces (' ' :: cs)).takeWhile _ = (skipSpaces cs).takeWhile _
        rw [skipSpaces_cons_space]
      rw [words_cons_space, skipSpaces_cons_space, ht]
      exact ih
    · rw [skipSpaces_cons_other c cs hc, if_neg (List.cons_ne_nil c cs)]
      have ht : token 0 (c :: cs) = c :: cs.takeWhile (fun x => x != ' ') := by
        unfold token
        show (skipSpaces (c :: cs)).takeWhile _ = _
        rw [skipSpaces_cons_other c cs hc]
        simp [List.takeWhile_cons, hc]
      have hd : (c :: cs).dropWhile (fun x => x != ' ') = skipWord cs := by
        simp [skipWord, List.dropWhile_cons, hc]
      have htw : (c :: cs).takeWhile (fun x => x != ' ') = c :: cs.takeWhile (fun x => x != ' ') := by
        simp [List.takeWhile_cons, hc]
      rw [ht, skipWord_cons_other c cs hc]
      unfold words
      rw [strictTokens_unfold (c :: cs), hd, htw]
      have hrest : List.filter (fun w => decide (w ≠ []))
          (match skipWord cs with
            | [] => []
            | _ :: r => strictTokens r)
          = List.filter (fun w => decide (w ≠ [])) (strictTokens (skipWord cs)) := by
        cases hsw : skipWord cs with
        | nil => rfl
        | cons d r =>
          have hd2 : d = ' ' := by
            have := List.head_dropWhile_not (fun x => x != ' ') cs (by
              show skipWord cs ≠ []
              rw [hsw]
              exact List.cons_ne_nil d r)
            have hhead : (List.dropWhile (fun x => x != ' ') cs).head (by
                show skipWord cs ≠ []
                rw [hsw]
                exact List.cons_ne_nil d r) = d := by
              have : List.dropWhile (fun x => x != ' ') cs = d :: r := hsw
              simp [this]
            rw [hhead] at this
            simpa using this
          subst hd2
          rw [strictTokens_cons_space]
          simp [List.filter_cons]
      rw [List.filter_cons]
      simp only [ne_eq, reduceCtorEq, not_false_eq_true, decide_True, if_true]
      exact congrArg (List.cons (c :: cs.takeWhile (fun x => x != ' '))) hrest

/-- The word number `k` of a line is its token number `k`. -/
theorem words_getElem (k : Nat) (s : Str) :
    (words s)[k]? = if fromToken k s = [] then none else some (token k s) := by
  induction k generalizing s with
  | zero =>
    rw [words_unfold]
    by_cases he : skipSpaces s = []
    · have hf : fromToken 0 s = [] := he
      rw [if_pos he, if_pos hf]
      rfl
    · have hf : ¬ fromToken 0 s = [] := he
      rw [if_neg he, if_neg hf, List.getElem?_cons_zero]
  | succ k ih =>
    rw [words_unfold]
    by_cases he : skipSpaces s = []
    · have hf : fromToken (k + 1) s = [] := by
        show fromToken k (skipWord (skipSpaces s)) = []
        rw [he, skipWord_nil, fromToken_nil]
      rw [if_pos he, if_pos hf]
      rfl
    · rw [if_neg he, List.getElem?_cons_succ, ih]
      rfl

theorem fromToken_cstr_of_nil (k : Nat) (s : Str) (h : fromToken k s = []) :
    fromToken k (cstr s) = [] := by
  by_contra hne
  have := fromToken_append k (cstr s) (s.dropWhile (fun c => c != NUL)) hne
  rw [← cstr_append_rest s, h] at this
  exact hne (List.append_eq_nil.mp this.symm).1

theorem words_length_le (s : Str) : (words s).length ≤ (strictTokens s).length :=
  List.length_filter_le _ _

/-- C11: a line with fewer than 4 tokens gets no chat message, whatever its tokens are.
The tokens may be counted without the empty ones (`words`; the empty line and a line of
spaces have none) or with them (`strictTokens`). -/
theorem getIRCMessage_few_tokens (s : Str)
    (h : (words s).length < 4 ∨ (strictTokens s).length < 4) : getIRCMessage s = none := by
  have hw : (words s).length < 4 := by
    rcases h with h | h
    · exact h
    · exact Nat.lt_of_le_of_lt (words_length_le s) h
  have hnone : (words s)[3]? = none := List.getElem?_eq_none (by omega)
  rw [words_getElem] at hnone
  have h3 : fromToken 3 s = [] := by
    by_contra hne
    rw [if_neg hne] at hnone
    cases hnone
  rw [getIRCMessage_eq, if_pos (fromToken_cstr_of_nil 3 s h3)]

/-- C11 on a line of three tokens whose second token is `PRIVMSG`, on the empty line and
on a line of spaces. -/
theorem getIRCMessage_few_tokens_witness :
    words ":nick!host PRIVMSG #chan".toList
        = [":nick!host".toList, "PRIVMSG".toList, "#chan".toList]
      ∧ getIRCMessage ":nick!host PRIVMSG #chan".toList = none
      ∧ getIRCMessage [] = none
      ∧ getIRCMessage "     ".toList = none :=
  ⟨by decide,
   getIRCMessage_few_tokens ":nick!host PRIVMSG #chan".toList (Or.inl (by decide)),
   getIRCMessage_few_tokens [] (Or.inl (by decide)),
   getIRCMessage_few_tokens "     ".toList (Or.inl (by decide))⟩

/-- What an accepted line looks like: the buffer has a fourth token, its second token is
`PRIVMSG`, and the message is built from its tokens. -/
theorem getIRCMessage_some (s : Str) (m : IRCMessage) (h : getIRCMessage s = some m) :
    fromToken 3 (cstr s) ≠ [] ∧ token 1 (cstr s) = "PRIVMSG".toList
      ∧ m = ⟨0, (strtokBang (token 0 (cstr s))).drop 1, (fromToken 3 (cstr s)).drop 1⟩ := by
  rw [getIRCMessage_eq] at h
  by_cases h3 : fromToken 3 (cstr s) = []
  · rw [if_pos h3] at h
    cases h
  · rw [if_neg h3] at h
    by_cases h1 : token 1 (cstr s) = "PRIVMSG".toList
    · rw [if_pos h1] at h
      cases h
      exact ⟨h3, h1, rfl⟩
    · rw [if_neg h1] at h
      cases h

/-- C12, amended: when the line is split into tokens at runs of spaces (leading spaces
dropped, repeated spaces collapsed, no empty tokens), `getIRCMessage` returns no chat
message unless the second token is exactly `PRIVMSG`. -/
theorem getIRCMessage_needs_privmsg (s : Str)
    (h : (words s)[1]? ≠ some "PRIVMSG".toList) : getIRCMessage s = none := by
  cases hg : getIRCMessage s with
  | none => rfl
  | some m =>
    exfalso
    obtain ⟨h3, h1, _⟩ := getIRCMessage_some s m hg
    have h2 : fromToken 2 (cstr s) ≠ [] := fromToken_ne_nil_of_succ 2 _ h3
    have h1' : fromToken 1 (cstr s) ≠ [] := fromToken_ne_nil_of_succ 1 _ h2
    have ht := token_append 1 (cstr s) (s.dropWhile (fun c => c != NUL)) h2
    have hf := fromToken_append 1 (cstr s) (s.dropWhile (fun c => c != NUL)) h1'
    rw [← cstr_append_rest s] at ht hf
    have hne : fromToken 1 s ≠ [] := by
      rw [hf]
      intro hz
      exact h1' (List.append_eq_nil.mp hz).1
    apply h
    rw [words_getElem, if_neg hne, ht, h1]

/-- C12, amended, on lines whose second token is `privmsg` in lower case, or is not the
command at all. -/
theorem getIRCMessage_needs_privmsg_witness :
    getIRCMessage ":nick!host privmsg #chan :hello".toList = none
      ∧ getIRCMessage ":nick!host JOIN PRIVMSG #chan :hello".toList = none :=
  ⟨getIRCMessage_needs_privmsg ":nick!host privmsg #chan :hello".toList (by decide),
   getIRCMessage_needs_privmsg ":nick!host JOIN PRIVMSG #chan :hello".toList (by decide)⟩

/-- C12 as stated fails: the line ` :nick!host PRIVMSG #chan :hello` begins with a space,
so split at every single space its first token is empty and its second token is
`:nick!host`, not `PRIVMSG`; `getIRCMessage` returns a chat message for it. The same
holds with two spaces after the first token. -/
theorem getIRCMessage_strict_split_fails :
    (strictTokens " :nick!host PRIVMSG #chan :hello".toList)[1]? = some ":nick!host".toList
      ∧ getIRCMessage " :nick!host PRIVMSG #chan :hello".toList
          = some ⟨0, "nick".toList, "hello".toList⟩
      ∧ (strictTokens ":nick!host  PRIVMSG #chan :hello".toList)[1]? = some []
      ∧ getIRCMessage ":nick!host  PRIVMSG #chan :hello".toList
          = some ⟨0, "nick".toList, "hello".toList⟩ := by
  decide

theorem strtokBang_of_head (t : Str) (h : t.head? ≠ some '!') :
    strtokBang t = t.takeWhile (fun c => c != '!') := by
  cases t with
  | nil => rfl
  | cons c r =>
    have hc : c ≠ '!' := by
      intro e
      apply h
      rw [e]
      rfl
    simp [strtokBang, List.takeWhile_cons, List.dropWhile_cons, hc]

/-- The first token and the text of an accepted line, in terms of the line itself. -/
theorem getIRCMessage_some_line (s : Str) (m : IRCMessage) (h : getIRCMessage s = some m) :
    fromToken 3 s ≠ []
      ∧ m.username = (strtokBang (token 0 s)).drop 1
      ∧ m.message = cstr ((fromToken 3 s).drop 1) := by
  obtain ⟨h3, _, hm⟩ := getIRCMessage_some s m h
  have h2 : fromToken 2 (cstr s) ≠ [] := fromToken_ne_nil_of_succ 2 _ h3
  have h1 : fromToken 1 (cstr s) ≠ [] := fromToken_ne_nil_of_succ 1 _ h2
  have ht := token_append 0 (cstr s) (s.dropWhile (fun c => c != NUL)) h1
  have hf := fromToken_append 3 (cstr s) (s.dropWhile (fun c => c != NUL)) h3
  rw [← cstr_append_rest s] at ht hf
  have hnn : ∀ a ∈ (fromToken 3 (cstr s)).drop 1, a ≠ NUL := by
    intro a ha
    obtain ⟨pre, hpre⟩ := fromToken_suffix 3 (cstr s)
    apply cstr_no_nul s a
    rw [← hpre]
    exact List.mem_append_right _ (List.mem_of_mem_drop ha)
  have hdrop : (fromToken 3 s).drop 1
      = (fromToken 3 (cstr s)).drop 1 ++ s.dropWhile (fun c => c != NUL) := by
    rw [hf]
    cases hF : fromToken 3 (cstr s) with
    | nil => exact absurd hF h3
    | cons c cs => rfl
  refine ⟨?_, ?_, ?_⟩
  · rw [hf]
    intro hz
    exact h3 (List.append_eq_nil.mp hz).1
  · rw [hm, ht]
  · rw [hm, hdrop, cstr_append_dropWhile _ s hnn]

/-- C13, amended: for every line that `getIRCMessage` accepts and whose first token does
not begin with `!`, the username is the part of the first token in front of its first
`!` (the whole token when it has none) without its first `char`, whether or not that
`char` is `:`. So when the first token begins with `:`, the username is that part with
the leading `:` stripped. -/
theorem getIRCMessage_username (s : Str) (m : IRCMessage) (h : getIRCMessage s = some m)
    (hbang : (token 0 s).head? ≠ some '!') :
    m.username = ((token 0 s).takeWhile (fun c => c != '!')).drop 1
      ∧ ((token 0 s).head? = some ':' →
          m.username = stripLeadingColon ((token 0 s).takeWhile (fun c => c != '!'))) := by
  obtain ⟨_, hu, _⟩ := getIRCMessage_some_line s m h
  rw [strtokBang_of_head _ hbang] at hu
  refine ⟨hu, ?_⟩
  intro hcolon
  rw [hu]
  cases ht : token 0 s with
  | nil =>
    rw [ht] at hcolon
    cases hcolon
  | cons c r =>
    rw [ht] at hcolon
    have hc : c = ':' := by
      simpa using hcolon
    subst hc
    have : (':' :: r).takeWhile (fun c => c != '!') = ':' :: r.takeWhile (fun c => c != '!') := by
      simp [List.takeWhile_cons]
    rw [this]
    rfl

/-- C13, amended, on a line with a regular prefix and on a line whose first token has no
`:` in front. -/
theorem getIRCMessage_username_witness :
    (∃ m, getIRCMessage ":nick!host PRIVMSG #chan :hello".toList = some m
        ∧ m.username = "nick".toList)
      ∧ (∃ m, getIRCMessage "nick!host PRIVMSG #chan :hello".toList = some m
        ∧ m.username = "ick".toList) :=
  ⟨⟨⟨0, "nick".toList, "hello".toList⟩, by decide,
     (getIRCMessage_username ":nick!host PRIVMSG #chan :hello".toList
        ⟨0, "nick".toList, "hello".toList⟩ (by decide) (by decide)).1⟩,
   ⟨⟨0, "ick".toList, "hello".toList⟩, by decide,
     (getIRCMessage_username "nick!host PRIVMSG #chan :hello".toList
        ⟨0, "ick".toList, "hello".toList⟩ (by decide) (by decide)).1⟩⟩

/-- C13 as stated fails: the first token `nick!host` does not begin with `:`, so the
claim gives the username `nick`, and `getIRCMessage` returns `ick`. On the first token
`!!ab!cd` the part in front of the first `!` is empty, and `getIRCMessage` returns
`!ab`. -/
theorem getIRCMessage_username_first_char_lost :
    (token 0 "nick!host PRIVMSG #chan :hello".toList = "nick!host".toList
        ∧ stripLeadingColon ("nick!host".toList.takeWhile (fun c => c != '!')) = "nick".toList
        ∧ getIRCMessage "nick!host PRIVMSG #chan :hello".toList
            = some ⟨0, "ick".toList, "hello".toList⟩)
      ∧ (token 0 "!!ab!cd PRIVMSG #chan :hello".toList = "!!ab!cd".toList
        ∧ stripLeadingColon ("!!ab!cd".toList.takeWhile (fun c => c != '!')) = []
        ∧ getIRCMessage "!!ab!cd PRIVMSG #chan :hello".toList
            = some ⟨0, "!ab".toList, "hello".toList⟩) := by
  decide

/-- C14, amended: for every line that `getIRCMessage` accepts, the text is the part of
the line that starts one `char` after the first `char` of the fourth token and runs to
the first NUL of that part, or to the end of the line when it has none: the first `char`
of the fourth token is removed whether or not it is `:`, and nothing else in front of the
NUL is removed. So when the fourth token begins with `:` and no NUL follows, the text is
the rest of the line from the fourth token on with that one `:` stripped. -/
theorem getIRCMessage_text (s : Str) (m : IRCMessage) (h : getIRCMessage s = some m) :
    m.message = cstr ((fromToken 3 s).drop 1)
      ∧ ((∀ a ∈ fromToken 3 s, a ≠ NUL) → m.message = (fromToken 3 s).drop 1)
      ∧ ((∀ a ∈ fromToken 3 s, a ≠ NUL) → (fromToken 3 s).head? = some ':' →
          m.message = stripLeadingColon (fromToken 3 s)) := by
  obtain ⟨h3, _, hm⟩ := getIRCMessage_some_line s m h
  have hplain : (∀ a ∈ fromToken 3 s, a ≠ NUL) → m.message = (fromToken 3 s).drop 1 := by
    intro hn
    rw [hm]
    exact cstr_of_no_nul _ (fun a ha => hn a (List.mem_of_mem_drop ha))
  refine ⟨hm, hplain, ?_⟩
  intro hn hcolon
  rw [hplain hn]
  cases hF : fromToken 3 s with
  | nil => exact absurd hF h3
  | cons c r =>
    rw [hF] at hcolon
    have hc : c = ':' := by simpa using hcolon
    subst hc
    rfl

/-- C14, amended, on a text with a second `:` and runs of spaces, and on a fourth token
without `:` in front. -/
theorem getIRCMessage_text_witness :
    (∃ m, getIRCMessage ":nick!host PRIVMSG #chan ::a  b ".toList = some m
        ∧ m.message = ":a  b ".toList)
      ∧ (∃ m, getIRCMessage ":nick!host PRIVMSG #chan hello you".toList = some m
        ∧ m.message = "ello you".toList) :=
  ⟨⟨⟨0, "nick".toList, ":a  b ".toList⟩, by decide,
     ((getIRCMessage_text ":nick!host PRIVMSG #chan ::a  b ".toList
        ⟨0, "nick".toList, ":a  b ".toList⟩ (by decide)).2.1 (by decide))⟩,
   ⟨⟨0, "nick".toList, "ello you".toList⟩, by decide,
     ((getIRCMessage_text ":nick!host PRIVMSG #chan hello you".toList
        ⟨0, "nick".toList, "ello you".toList⟩ (by decide)).2.1 (by decide))⟩⟩

/-- C14 as stated fails: the fourth token `hello` does not begin with `:`, so the claim
gives the text `hello you`, and `getIRCMessage` returns `ello you`. And the text of the
line `:nick!host PRIVMSG #chan :hi<NUL>yo` stops at the NUL. -/
theorem getIRCMessage_text_first_char_lost :
    (fromToken 3 ":nick!host PRIVMSG #chan hello you".toList = "hello you".toList
        ∧ stripLeadingColon "hello you".toList = "hello you".toList
        ∧ getIRCMessage ":nick!host PRIVMSG #chan hello you".toList
            = some ⟨0, "nick".toList, "ello you".toList⟩)
      ∧ (stripLeadingColon
            (fromToken 3 (":nick!host PRIVMSG #chan :hi".toList ++ NUL :: "yo".toList))
          = "hi".toList ++ NUL :: "yo".toList
        ∧ getIRCMessage (":nick!host PRIVMSG #chan :hi".toList ++ NUL :: "yo".toList)
            = some ⟨0, "nick".toList, "hi".toList⟩) := by
  decide

/-! ## Spaces in front of the text -/

theorem fromToken_congr (k : Nat) (x y : Str) (h : skipSpaces x = skipSpaces y) :
    fromToken k x = fromToken k y := by
  cases k with
  | zero => exact h
  | succ k =>
    show fromToken k (skipWord (skipSpaces x)) = fromToken k (skipWord (skipSpaces y))
    rw [h]

theorem token_congr (k : Nat) (x y : Str) (h : skipSpaces x = skipSpaces y) :
    token k x = token k y := by
  unfold token
  rw [fromToken_congr k x y h]

theorem skipSpaces_append_of_nil (a y : Str) (h : skipSpaces a = []) :
    skipSpaces (a ++ y) = skipSpaces y := by
  unfold skipSpaces at *
  rw [List.dropWhile_append, h]
  rfl

theorem skipWord_append_space (y z : Str) :
    skipWord (y ++ ' ' :: z) = skipWord y ++ ' ' :: z := by
  by_cases h : skipWord y = []
  · unfold skipWord at *
    rw [List.dropWhile_append, h]
    simp [List.dropWhile_cons]
  · exact dropWhile_append_of_ne_nil _ y _ h

theorem takeWord_append_space (y z : Str) :
    (y ++ ' ' :: z).takeWhile (fun c => c != ' ') = y.takeWhile (fun c => c != ' ') := by
  by_cases h : y.dropWhile (fun c => c != ' ') = []
  · have hall : ∀ a ∈ y, (fun c => c != ' ') a = true := by
      intro a ha
      have hy := List.takeWhile_append_dropWhile (fun c => c != ' ') y
      rw [h, List.append_nil] at hy
      rw [← hy] at ha
      have hp := List.mem_takeWhile_imp ha
      exact hp
    rw [takeWhile_append_stop y z ' ' hall (by decide)]
    have hy := List.takeWhile_append_dropWhile (fun c => c != ' ') y
    rw [h, List.append_nil] at hy
    exact hy.symm
  · exact takeWhile_append_of_dropWhile_ne_nil _ y _ h

/-- A space put next to a space that comes before the fourth token does not move the
part of the line that starts at the fourth token. -/
theorem fromToken_insert_space (k : Nat) (a b : Str) (h : fromToken k a = []) :
    fromToken k (a ++ ' ' :: ' ' :: b) = fromToken k (a ++ ' ' :: b) := by
  induction k generalizing a with
  | zero =>
    apply fromToken_congr
    have h0 : skipSpaces a = [] := h
    simp only [skipSpaces_append_of_nil a _ h0, skipSpaces_cons_space]
  | succ k ih =>
    by_cases h0 : skipSpaces a = []
    · apply fromToken_congr
      simp only [skipSpaces_append_of_nil a _ h0, skipSpaces_cons_space]
    · have e1 : skipSpaces (a ++ ' ' :: ' ' :: b) = skipSpaces a ++ ' ' :: ' ' :: b :=
        dropWhile_append_of_ne_nil _ a _ h0
      have e2 : skipSpaces (a ++ ' ' :: b) = skipSpaces a ++ ' ' :: b :=
        dropWhile_append_of_ne_nil _ a _ h0
      show fromToken k (skipWord (skipSpaces (a ++ ' ' :: ' ' :: b)))
        = fromToken k (skipWord (skipSpaces (a ++ ' ' :: b)))
      rw [e1, e2, skipWord_append_space, skipWord_append_space]
      exact ih (skipWord (skipSpaces a)) h

/-- A space put next to a space changes no token. -/
theorem token_insert_space (k : Nat) (a b : Str) :
    token k (a ++ ' ' :: ' ' :: b) = token k (a ++ ' ' :: b) := by
  induction k generalizing a with
  | zero =>
    by_cases h0 : skipSpaces a = []
    · apply token_congr
      simp only [skipSpaces_append_of_nil a _ h0, skipSpaces_cons_space]
    · have e1 : skipSpaces (a ++ ' ' :: ' ' :: b) = skipSpaces a ++ ' ' :: ' ' :: b :=
        dropWhile_append_of_ne_nil _ a _ h0
      have e2 : skipSpaces (a ++ ' ' :: b) = skipSpaces a ++ ' ' :: b :=
        dropWhile_append_of_ne_nil _ a _ h0
      show (skipSpaces (a ++ ' ' :: ' ' :: b)).takeWhile _
        = (skipSpaces (a ++ ' ' :: b)).takeWhile _
      rw [e1, e2, takeWord_append_space, takeWord_append_space]
  | succ k ih =>
    by_cases h0 : skipSpaces a = []
    · apply token_congr
      simp only [skipSpaces_append_of_nil a _ h0, skipSpaces_cons_space]
    · have e1 : skipSpaces (a ++ ' ' :: ' ' :: b) = skipSpaces a ++ ' ' :: ' ' :: b :=
        dropWhile_append_of_ne_nil _ a _ h0
      have e2 : skipSpaces (a ++ ' ' :: b) = skipSpaces a ++ ' ' :: b :=
        dropWhile_append_of_ne_nil _ a _ h0
      show token k (skipWord (skipSpaces (a ++ ' ' :: ' ' :: b)))
        = token k (skipWord (skipSpaces (a ++ ' ' :: b)))
      rw [e1, e2, skipWord_append_space, skipWord_append_space]
      exact ih (skipWord (skipSpaces a))

theorem takeWhile_append_of_not_all (p : Char → Bool) (a y : Str)
    (h : ¬ ∀ x ∈ a, p x = true) : (a ++ y).takeWhile p = a.takeWhile p := by
  induction a with
  | nil => exact absurd (fun x hx => by cases hx) h
  | cons c cs ih =>
    by_cases hc : p c = true
    · have h2 : ¬ ∀ x ∈ cs, p x = true := by
        intro hall
        apply h
        intro x hx
        rcases List.mem_cons.mp hx with e | e
        · rw [e]; exact hc
        · exact hall x e
      simp [List.takeWhile_cons, hc, ih h2]
    · simp [List.takeWhile_cons, hc]

theorem getIRCMessage_of_buf (x y : Str)
    (h0 : token 0 (cstr x) = token 0 (cstr y)) (h1 : token 1 (cstr x) = token 1 (cstr y))
    (h3 : fromToken 3 (cstr x) = fromToken 3 (cstr y)) :
    getIRCMessage x = getIRCMessage y := by
  rw [getIRCMessage_eq, getIRCMessage_eq, h0, h1, h3]

theorem getIRCMessage_leading_space (s : Str) : getIRCMessage (' ' :: s) = getIRCMessage s := by
  have hb : cstr (' ' :: s) = ' ' :: cstr s := by
    unfold cstr
    exact takeWhile_cons_keep ' ' s (by decide)
  have hsk : skipSpaces (cstr (' ' :: s)) = skipSpaces (cstr s) := by
    rw [hb, skipSpaces_cons_space]
  exact getIRCMessage_of_buf _ _ (token_congr 0 _ _ hsk) (token_congr 1 _ _ hsk)
    (fromToken_congr 3 _ _ hsk)

theorem getIRCMessage_insert_space (a b : Str) (h : fromToken 3 a = []) :
    getIRCMessage (a ++ ' ' :: ' ' :: b) = getIRCMessage (a ++ ' ' :: b) := by
  by_cases hn : ∀ x ∈ a, (fun c => c != NUL) x = true
  · have hsp : (fun c => c != NUL) ' ' = true := by decide
    have e1 : cstr (a ++ ' ' :: ' ' :: b) = a ++ ' ' :: ' ' :: cstr b := by
      unfold cstr
      rw [takeWhile_append_all a _ hn, takeWhile_cons_keep ' ' _ hsp,
        takeWhile_cons_keep ' ' _ hsp]
    have e2 : cstr (a ++ ' ' :: b) = a ++ ' ' :: cstr b := by
      unfold cstr
      rw [takeWhile_append_all a _ hn, takeWhile_cons_keep ' ' _ hsp]
    apply getIRCMessage_of_buf
    · rw [e1, e2, token_insert_space]
    · rw [e1, e2, token_insert_space]
    · rw [e1, e2, fromToken_insert_space 3 a _ h]
  · have e1 : cstr (a ++ ' ' :: ' ' :: b) = cstr a := takeWhile_append_of_not_all _ a _ hn
    have e2 : cstr (a ++ ' ' :: b) = cstr a := takeWhile_append_of_not_all _ a _ hn
    apply getIRCMessage_of_buf
    · rw [e1, e2]
    · rw [e1, e2]
    · rw [e1, e2]

/-- C20, amended: a space put at the start of a line, or next to a space of the line that
comes before its fourth token (the part `a` in front of that space holds no fourth
token), does not change what `getIRCMessage` returns, neither the decision nor the
username nor the text; and the text of an accepted line is what follows the first `char`
of the fourth token, spaces and runs of spaces included as they are, up to the first NUL
of that part (to the end of the line when it has none). -/
theorem getIRCMessage_collapses_spaces (s a b : Str) :
    getIRCMessage (' ' :: s) = getIRCMessage s
      ∧ (fromToken 3 a = [] →
          getIRCMessage (a ++ ' ' :: ' ' :: b) = getIRCMessage (a ++ ' ' :: b))
      ∧ (∀ m, getIRCMessage s = some m → m.message = cstr ((fromToken 3 s).drop 1))
      ∧ (∀ m, getIRCMessage s = some m → (∀ x ∈ fromToken 3 s, x ≠ NUL) →
          m.message = (fromToken 3 s).drop 1) := by
  refine ⟨getIRCMessage_leading_space s, getIRCMessage_insert_space a b, ?_, ?_⟩
  · intro m hm
    exact (getIRCMessage_some_line s m hm).2.2
  · intro m hm hn
    rw [(getIRCMessage_some_line s m hm).2.2]
    exact cstr_of_no_nul _ (fun x hx => hn x (List.mem_of_mem_drop hx))

/-- C20, amended, on a line with a second space after the first token: the result is that
of the line with single spaces, and the two spaces inside the text are kept. -/
theorem getIRCMessage_collapses_spaces_witness :
    fromToken 3 ":nick!host".toList = []
      ∧ getIRCMessage (":nick!host".toList ++ ' ' :: ' ' :: "PRIVMSG #chan :hello  world".toList)
        = getIRCMessage (":nick!host".toList ++ ' ' :: "PRIVMSG #chan :hello  world".toList)
      ∧ getIRCMessage (":nick!host".toList ++ ' ' :: "PRIVMSG #chan :hello  world".toList)
        = some ⟨0, "nick".toList, "hello  world".toList⟩ :=
  ⟨by decide,
   (getIRCMessage_collapses_spaces [] ":nick!host".toList
      "PRIVMSG #chan :hello  world".toList).2.1 (by decide),
   by decide⟩

/-- C20 as stated fails in its last part: in the line
`:nick!host PRIVMSG #chan :a<NUL>b  c` the part after the first `char` of the fourth
token is `a<NUL>b  c`, with a run of two spaces, and the text returned is `a`: the
spaces are not in it. -/
theorem getIRCMessage_spaces_after_nul_lost :
    (fromToken 3 (":nick!host PRIVMSG #chan :a".toList ++ NUL :: "b  c".toList)).drop 1
        = "a".toList ++ NUL :: "b  c".toList
      ∧ getIRCMessage (":nick!host PRIVMSG #chan :a".toList ++ NUL :: "b  c".toList)
        = some ⟨0, "nick".toList, "a".toList⟩
      ∧ ¬ (∀ m, getIRCMessage (":nick!host PRIVMSG #chan :a".toList ++ NUL :: "b  c".toList)
            = some m →
          m.message
            = (fromToken 3 (":nick!host PRIVMSG #chan :a".toList ++ NUL :: "b  c".toList)).drop 1) := by
  refine ⟨by decide, by decide, ?_⟩
  intro h
  have := h ⟨0, "nick".toList, "a".toList⟩ (by decide)
  revert this
  decide

end TwitchBot
